import Mathlib

/-!
Verification of the data-preparation core of the TSSI DenseNet121 WLASL100
repository (`preprocessing.py`, `dataset.py`), shallowly embedded in Lean 4.

Modelling conventions:
* coordinates are rationals (`ℚ`); IEEE non-finite results (NaN / Inf)
  produced by pandas float division by zero are modelled as `none` in
  `Option ℚ`;
* a pandas dataframe of landmark rows is a `List` of row structures;
* fallible Python calls (TypeError on keyword binding, KeyError on dict
  lookup, explicit `raise`) are modelled with `Except String`;
* in-place pandas mutation (`df.loc[...] = ...` after `df = df.copy()`) is
  modelled by an explicit store (list of tables) with indexed writes.
-/

namespace TSSI

/-- Minimum of a list of rationals, `0` on the empty list; models pandas
`.min(axis=1)`, which the source only uses on nonempty selections. -/
def listMin : List ℚ → ℚ
  | [] => 0
  | a :: t => t.foldl min a

/-- Maximum of a list of rationals, `0` on the empty list; models pandas
`.max(axis=1)` / `.max()`. -/
def listMax : List ℚ → ℚ
  | [] => 0
  | a :: t => t.foldl max a

/-- Maximum absolute value of a list of rationals; models `.abs().max(...)`. -/
def maxAbs (l : List ℚ) : ℚ :=
  listMax (l.map (fun v => |v|))

/-- Model of `tf.math.divide_no_nan`: division that returns `0` when the
denominator is `0` (source: preprocessing.py lines 250-254, 275-279). -/
def divide_no_nan (a b : ℚ) : ℚ :=
  if b = 0 then 0 else a / b

/-- Model of pandas float division of a cell by a scalar: a zero denominator
yields an IEEE non-finite value (`0/0 = NaN`, `x/0 = ±Inf`), modelled as
`none`; otherwise the exact quotient. -/
def pdiv (a b : ℚ) : Option ℚ :=
  if b = 0 then none else some (a / b)

/-- One row of a landmark dataframe as consumed by the two normalizers
(`normalize_dataframe_legacy`, `normalize_dataframe_from_neg1_to_1`):
the `video` id column, the `root_x`/`root_y` columns, and the values of the
x-stride columns (`columns[3::2]`) and y-stride columns (`columns[4::2]`). -/
structure DFRow where
  video : ℕ
  rootX : ℚ
  rootY : ℚ
  xs : List ℚ
  ys : List ℚ
deriving DecidableEq, Repr, Inhabited

/-! ### normalize_dataframe_legacy (preprocessing.py lines 125-161) -/

/-- Per-axis shift of legacy normalization (preprocessing.py lines 131-145):
rows where any value of the axis is negative are shifted by the absolute
value of the row minimum of that axis; other rows are untouched. -/
def shiftAxis (l : List ℚ) : List ℚ :=
  if l.any (fun v => decide (v < 0)) then l.map (fun v => v + |listMin l|) else l

/-- The x-axis move of legacy normalization (lines 131-137). -/
def legacyShiftX (df : List DFRow) : List DFRow :=
  df.map (fun r => { r with xs := shiftAxis r.xs })

/-- The y-axis move of legacy normalization (lines 139-145). -/
def legacyShiftY (df : List DFRow) : List DFRow :=
  df.map (fun r => { r with ys := shiftAxis r.ys })

/-- All coordinate values of a row (`xy_columns = dataframe.columns[3:]`). -/
def rowVals (r : DFRow) : List ℚ :=
  r.xs ++ r.ys

/-- Membership in `out_of_scale_mask = np.any(dataframe[xy_columns] > 1, axis=1)`
(line 153). -/
def outOfScale (r : DFRow) : Bool :=
  (rowVals r).any (fun v => decide (1 < v))

/-- Per-video maximum over the out-of-scale rows passed in `ms`:
`abs_grouped[xy_columns].max().max(axis=1)` for the group of video `v`
(line 156). -/
def videoMax (ms : List DFRow) (v : ℕ) : ℚ :=
  maxAbs ((ms.filter (fun r => r.video == v)).flatMap rowVals)

/-- Group size of video `v` among the rows `ms`: `abs_grouped.size()` (line 155). -/
def repetitions (ms : List DFRow) (v : ℕ) : ℕ :=
  (ms.filter (fun r => r.video == v)).length

/-- Insert a key into a strictly sorted list of keys, keeping it sorted and
duplicate-free. -/
def insertSortedU (v : ℕ) : List ℕ → List ℕ
  | [] => [v]
  | a :: t => if v < a then v :: a :: t else if v = a then a :: t else a :: insertSortedU v t

/-- Sorted deduplicated keys of a list, in ascending order; models the sorted
group keys produced by pandas `groupby`. -/
def sortedUnique (l : List ℕ) : List ℕ :=
  l.foldr insertSortedU []

/-- Sorted group keys of the out-of-scale rows: the index of `abs_grouped`. -/
def sortedKeys (ms : List DFRow) : List ℕ :=
  sortedUnique (ms.map (fun r => r.video))

/-- The scale vector `max_per_video.repeat(repetitions)` (line 157): for each
group key in ascending order, its per-video maximum repeated once per row of
the group, concatenated positionally. -/
def repeatedFactors (ms : List DFRow) : List ℚ :=
  (sortedKeys ms).flatMap (fun v => List.replicate (repetitions ms v) (videoMax ms v))

/-- Divide every coordinate of a row by a scale factor. -/
def scaleRow (r : DFRow) (f : ℚ) : DFRow :=
  { r with xs := r.xs.map (fun v => v / f), ys := r.ys.map (fun v => v / f) }

/-- The masked assignment of line 158-159: walking the table in order, each
out-of-scale row consumes the next entry of the positional factor vector and
is divided by it; in-scale rows are left untouched and consume nothing. -/
def applyFactors : List DFRow → List ℚ → List DFRow
  | [], _ => []
  | r :: t, fs =>
    if outOfScale r then scaleRow r (fs.headD 1) :: applyFactors t fs.tail
    else r :: applyFactors t fs

/-- The scaling step of legacy normalization (lines 153-159). -/
def legacyScale (df : List DFRow) : List DFRow :=
  applyFactors df (repeatedFactors (df.filter outOfScale))

/-- `normalize_dataframe_legacy` (preprocessing.py lines 125-161): shift the
x axis, shift the y axis, then scale the out-of-scale rows by the per-video
maxima. -/
def normalize_dataframe_legacy (df : List DFRow) : List DFRow :=
  legacyScale (legacyShiftY (legacyShiftX df))

/-! ### normalize_dataframe_from_neg1_to_1 (preprocessing.py lines 102-122) -/

/-- Centering of the x-stride columns (lines 111-113); `root_arr` is read
before the assignment, which the separate `rootX` field reflects. -/
def centerX (df : List DFRow) : List DFRow :=
  df.map (fun r => { r with xs := r.xs.map (fun v => v - r.rootX) })

/-- Centering of the y-stride columns (lines 114-115). -/
def centerY (df : List DFRow) : List DFRow :=
  df.map (fun r => { r with ys := r.ys.map (fun v => v - r.rootY) })

/-- The per-row scale `xy_data.abs().max(axis=1)` (line 119). -/
def rowScale (r : DFRow) : ℚ :=
  maxAbs (rowVals r)

/-- The scaling assignment `xy_data / scales` (line 120), keeping the x-stride
and y-stride columns apart; cells hit by a zero denominator become
non-finite (`none`). -/
def scaleNeg1To1 (df : List DFRow) : List (List (Option ℚ) × List (Option ℚ)) :=
  df.map (fun r => (r.xs.map (fun v => pdiv v (rowScale r)), r.ys.map (fun v => pdiv v (rowScale r))))

/-- `normalize_dataframe_from_neg1_to_1` (preprocessing.py lines 102-122):
center both axes on the root columns, then scale each row by its maximum
absolute coordinate. -/
def normalize_dataframe_from_neg1_to_1 (df : List DFRow) : List (List (Option ℚ) × List (Option ℚ)) :=
  scaleNeg1To1 (centerY (centerX df))

/-- `normalize_dataframe` (preprocessing.py lines 93-99): dispatch on the
normalization mode string (`Normalization` is a `str` enum with values
`"neg1_to_1"` and `"legacy"`); any other mode raises. Legacy output cells
are all finite, hence wrapped in `some` for a common result type. -/
def normalize_dataframe (df : List DFRow) (normalization : String) :
    Except String (List (List (Option ℚ) × List (Option ℚ))) :=
  if normalization = "neg1_to_1" then
    Except.ok (normalize_dataframe_from_neg1_to_1 df)
  else if normalization = "legacy" then
    Except.ok ((normalize_dataframe_legacy df).map (fun r => (r.xs.map some, r.ys.map some)))
  else
    Except.error ("Unknown normalization: " ++ normalization)

/-! ### PadIfLessThan / ResizeIfMoreThan (preprocessing.py lines 169-197)

A batch element ("image") is a list of frames; each frame is a list of
joints; each joint a list of channel values.  The layers act independently
on each batch element, so they are modelled on a single element; the batch
dimension (axis 0, never touched by either layer) is elided. -/

/-- An all-zero frame of `w` joints and `c` channels: the `"CONSTANT"`
padding content of `tf.pad`. -/
def zeroFrame (w c : ℕ) : List (List ℚ) :=
  List.replicate w (List.replicate c 0)

/-- `PadIfLessThan.call` (lines 174-181): pad the frame axis at the end with
`max(0, frames - height)` zero frames; `w`, `c` are the static joint and
channel sizes of the tensor.  Nat subtraction is exactly
`tf.math.maximum(0, self.frames - height)`. -/
def PadIfLessThan.call (frames w c : ℕ) (images : List (List (List ℚ))) :
    List (List (List ℚ)) :=
  images ++ List.replicate (frames - images.length) (zeroFrame w c)

/-- Linear interpolation of two channel values with weight `t`. -/
def lerpPixel (t x y : ℚ) : ℚ :=
  (1 - t) * x + t * y

/-- Pointwise linear interpolation of two frames. -/
def lerpFrame (t : ℚ) (a b : List (List ℚ)) : List (List ℚ) :=
  List.zipWith (fun ra rb => List.zipWith (fun x y => lerpPixel t x y) ra rb) a b

/-- Source coordinate of output frame `i` under `tf.image.resize` with the
default bilinear / half-pixel-centers kernel. -/
def resizeSrc (h frames i : ℕ) : ℚ :=
  ((i : ℚ) + 1/2) * h / frames - 1/2

/-- One output frame of the bilinear resize along the frame axis: the two
source indices are clamped into `[0, h-1]` as in the TF kernel.  The width
axis is resized to its own size, which the half-pixel-centers kernel maps
identically, so only the frame axis interpolates. -/
def resizeFrame (images : List (List (List ℚ))) (frames i : ℕ) : List (List ℚ) :=
  let h := images.length
  let s := resizeSrc h frames i
  let i0 := min (⌊s⌋.toNat) (h - 1)
  let i1 := min (i0 + 1) (h - 1)
  lerpFrame (s - (⌊s⌋ : ℚ)) (images.getD i0 []) (images.getD i1 [])

/-- Bilinear resize of the frame axis to exactly `frames` frames. -/
def bilinearResize (frames : ℕ) (images : List (List (List ℚ))) :
    List (List (List ℚ)) :=
  (List.range frames).map (fun i => resizeFrame images frames i)

/-- `ResizeIfMoreThan.call` (lines 189-197): `tf.cond(height > self.frames,
resize, identity)`. -/
def ResizeIfMoreThan.call (frames : ℕ) (images : List (List (List ℚ))) :
    List (List (List ℚ)) :=
  if frames < images.length then bilinearResize frames images else images

/-- Well-formedness of a batch element: every frame has exactly `w` joints
and every joint exactly `c` channel values (the rectangular tensor shape). -/
def Imgwf (w c : ℕ) (images : List (List (List ℚ))) : Prop :=
  ∀ fr ∈ images, fr.length = w ∧ ∀ px ∈ fr, px.length = c

/-! ### TranslationScaleInvariant (preprocessing.py lines 224-289)

The layer unstacks the batch into the three channel planes and treats each
plane independently, so one plane of one example — a frames × joints matrix
of rationals — is the unit of modelling. -/

/-- `tf.reduce_min` over the frame and joint axes of one channel plane. -/
def channelMin (ch : List (List ℚ)) : ℚ :=
  listMin ch.flatten

/-- `tf.reduce_max` over the frame and joint axes of one channel plane. -/
def channelMax (ch : List (List ℚ)) : ℚ :=
  listMax ch.flatten

/-- `channel_level_translation_scale_invariant` (lines 233-256) on one
channel plane: `divide_no_nan(v - min, max - min)` with one scalar min and
max per plane. -/
def channel_level_translation_scale_invariant (ch : List (List ℚ)) : List (List ℚ) :=
  ch.map (fun row => row.map (fun v => divide_no_nan (v - channelMin ch) (channelMax ch - channelMin ch)))

/-- Column `j` of a channel plane (the per-joint time series). -/
def jointColumn (ch : List (List ℚ)) (j : ℕ) : List ℚ :=
  ch.map (fun row => row.getD j 0)

/-- `tf.reduce_min` over the frame axis only, per joint. -/
def jointMin (ch : List (List ℚ)) (j : ℕ) : ℚ :=
  listMin (jointColumn ch j)

/-- `tf.reduce_max` over the frame axis only, per joint. -/
def jointMax (ch : List (List ℚ)) (j : ℕ) : ℚ :=
  listMax (jointColumn ch j)

/-- `joint_level_translation_scale_invariant` (lines 258-281) on one channel
plane: per-joint min-max normalization with `divide_no_nan`. -/
def joint_level_translation_scale_invariant (ch : List (List ℚ)) : List (List ℚ) :=
  ch.map (fun row => row.enum.map (fun p => divide_no_nan (p.2 - jointMin ch p.1) (jointMax ch p.1 - jointMin ch p.1)))

/-! ### dataframe_to_dataset and generate_test_dataset (dataset.py lines 23-107)

For the label-encoding and bucketing logic only the `video` and `label`
columns and the per-video row counts matter, so a dataframe is modelled as
a list of `(video, label)` rows; labels are numeric codes. -/

/-- One dataframe row as seen by the dataset builder. -/
structure VRow where
  video : ℕ
  label : ℕ
deriving DecidableEq, Repr

/-- `dataframe.groupby("video")["label"].unique()` for one video key. -/
def uniqueLabelsOfVideo (rows : List VRow) (v : ℕ) : List ℕ :=
  ((rows.filter (fun r => r.video == v)).map (fun r => r.label)).dedup

/-- `video_labels = dataframe.groupby("video")["label"].unique().tolist()`
(dataset.py line 37); pandas groupby iterates keys in sorted order. -/
def video_labels (rows : List VRow) : List (List ℕ) :=
  (sortedUnique (rows.map (fun r => r.video))).map (uniqueLabelsOfVideo rows)

/-- `video_lengths = list(dataframe.groupby("video")["frame"].count())`
(dataset.py line 38). -/
def video_lengths (rows : List VRow) : List ℕ :=
  (sortedUnique (rows.map (fun r => r.video))).map (fun v => (rows.filter (fun r => r.video == v)).length)

/-- The categories learned by `OneHotEncoder().fit` inside
`dataframe_to_dataset` (line 27 and 42): the sorted distinct label values of
the one dataframe passed to this call — sklearn sorts categories. -/
def encCategories (rows : List VRow) : List ℕ :=
  sortedUnique (video_labels rows).flatten

/-- One-hot vector of label `l` against a category list. -/
def oneHot (cats : List ℕ) (l : ℕ) : List ℕ :=
  cats.map (fun c => if c = l then 1 else 0)

/-- The label tensor `y = enc.fit_transform(video_labels).toarray()`
(line 42): one one-hot row per video, over the categories of this call;
each video contributes its (by data contract unique) label. -/
def datasetLabels (rows : List VRow) : List (List ℕ) :=
  (video_labels rows).map (fun ls => oneHot (encCategories rows) (ls.headD 0))

/-- The `(X row-lengths, y)` content of `dataframe_to_dataset`
(dataset.py lines 23-46) that the claims are about: per-video frame counts
and per-video one-hot labels, in sorted video order. -/
def dataframe_to_dataset (rows : List VRow) : List ℕ × List (List ℕ) :=
  (video_lengths rows, datasetLabels rows)

/-- `max_element_length = dataframe.groupby("video").size().max()`
(dataset.py lines 90-91). -/
def maxElementLength (lens : List ℕ) : ℕ :=
  lens.foldl max 0

/-- `bucket_boundaries = list(range(1, max_element_length))` (line 92). -/
def bucket_boundaries (m : ℕ) : List ℕ :=
  List.range' 1 (m - 1)

/-- Bucket index of an element of length `len` under
`tf.data.Dataset.bucket_by_sequence_length`: the number of boundaries that
are `≤ len` (bucket `i` holds lengths in `[b_(i-1), b_i)`, the last bucket
everything at or above the final boundary). -/
def bucketOf (m len : ℕ) : ℕ :=
  (bucket_boundaries m).countP (fun b => decide (b ≤ len))

/-- Worker for `chunksOf`, structurally recursive on a fuel bound that
dominates the list length (the `0, _ :: _` arm is unreachable for the fuel
`chunksOf` passes). -/
def chunksOfGo (bs : ℕ) : ℕ → List α → List (List α)
  | _, [] => []
  | 0, a :: t => [a :: t]
  | fuel + 1, a :: t =>
    if bs = 0 then [a :: t]
    else (a :: t).take bs :: chunksOfGo bs fuel ((a :: t).drop bs)

/-- Split a list into consecutive chunks of at most `bs` elements: the
batches a bucket emits (full windows during the stream, the remainder at
end of input). -/
def chunksOf (bs : ℕ) (l : List α) : List (List α) :=
  chunksOfGo bs l.length l

/-- The per-video elements `(video id, frame count)` entering the evaluation
pipeline, in the dataset's sorted-by-video order. -/
def videoLengthPairs (rows : List VRow) : List (ℕ × ℕ) :=
  (sortedUnique (rows.map (fun r => r.video))).map
    (fun v => (v, (rows.filter (fun r => r.video == v)).length))

/-- The batches produced by `generate_test_dataset` (dataset.py lines
81-107): elements are routed to the bucket of their frame count and each
bucket is batched on its own with batch size `batch_size`
(`bucket_batch_sizes = [batch_size] * max_element_length`, `no_padding=True`);
batch contents are per-bucket chunks of the element stream. -/
def generate_test_dataset_batches (rows : List VRow) (batch_size : ℕ) :
    List (List (ℕ × ℕ)) :=
  let elems := videoLengthPairs rows
  let m := maxElementLength (elems.map (fun e => e.2))
  (List.range m).flatMap
    (fun b => chunksOf batch_size (elems.filter (fun e => bucketOf m e.2 == b)))

/-! ### Python call binding and configuration errors (dataset.py / preprocessing.py)

Keyword-argument binding of a Python call is modelled by checking every
keyword of the call site against the parameter list of the callee's `def`
line; an unknown keyword raises `TypeError` before the callee body runs. -/

/-- Parameter list of `def preprocess_dataframe(dataframe, select_columns=[],
with_root=True, with_midhip=False)` (preprocessing.py line 29). -/
def preprocess_dataframe_params : List String :=
  ["dataframe", "select_columns", "with_root", "with_midhip"]

/-- Keywords passed to `preprocess_dataframe` by `Dataset.get_training_set`,
`Dataset.get_validation_set` and `Dataset.get_testing_set` (dataset.py lines
142-145, 187-190, 222-225); the dataframe itself is passed positionally. -/
def dataset_preprocess_call_kwargs : List String :=
  ["with_root", "with_midhip", "normalization"]

/-- Bind the keywords of a call against a parameter list: the first keyword
missing from the parameter list raises `TypeError`. -/
def bindKwargs (fname : String) (params kwargs : List String) : Except String Unit :=
  match kwargs.find? (fun k => !(params.contains k)) with
  | some k => Except.error ("TypeError: " ++ fname ++ "() got an unexpected keyword argument " ++ k)
  | none => Except.ok ()

/-- The augmentation catalog `available_augmentations` (dataset.py lines
11-17), by name. -/
def available_augmentations : List String :=
  ["scale", "shift", "flip", "rotation", "speed"]

/-- The default augmentation order (dataset.py line 20). -/
def augmentations_order : List String :=
  ["flip", "rotation", "speed"]

/-- `[available_augmentations[aug] for aug in augmentations]` (dataset.py
line 160): each name is looked up in the catalog dict; an unknown name
raises `KeyError`. -/
def buildAugmentationLayers : List String → Except String (List String)
  | [] => Except.ok []
  | a :: t =>
    if available_augmentations.contains a then
      match buildAugmentationLayers t with
      | Except.ok rest => Except.ok (a :: rest)
      | Except.error e => Except.error e
    else Except.error ("KeyError: " ++ a)

/-- `Dataset.get_training_set` (dataset.py lines 134-181) as a sequence of
fallible steps: bind the `preprocess_dataframe` call's keywords, then build
the augmentation layers, then deliver the pipeline (represented by its
augmentation layer names). -/
def Dataset.get_training_set (augmentations : List String) : Except String (List String) := do
  (_ : Unit) ← bindKwargs "preprocess_dataframe" preprocess_dataframe_params dataset_preprocess_call_kwargs
  let layers ← buildAugmentationLayers augmentations
  pure layers

/-- `Dataset.get_validation_set` (dataset.py lines 183-211): bind the
`preprocess_dataframe` call's keywords, then deliver the pipeline. -/
def Dataset.get_validation_set : Except String Unit := do
  (_ : Unit) ← bindKwargs "preprocess_dataframe" preprocess_dataframe_params dataset_preprocess_call_kwargs
  pure ()

/-- `Dataset.get_testing_set` (dataset.py lines 213-246): raise if no test
dataframe was supplied (lines 218-219), then bind the `preprocess_dataframe`
call's keywords, then deliver the pipeline. -/
def Dataset.get_testing_set (testProvided : Bool) : Except String Unit := do
  if testProvided then
    (_ : Unit) ← bindKwargs "preprocess_dataframe" preprocess_dataframe_params dataset_preprocess_call_kwargs
    pure ()
  else
    Except.error "Test dataframe was not provided"

/-! ### replace_nan_with_other_column and preprocess_dataframe substitution
(preprocessing.py lines 12-26 and 66-82)

A selected column block is a row-major matrix of cells; a missing value
(`NaN`) is `none`.  `replace_nan_with_other_column` enumerates the positions
of the missing cells (`np.where(np.isnan(arr))`) and overwrites each with
the anchor-column value of its row, exactly as the source loop does. -/

/-- Cell of a row-major matrix, `none` outside the matrix. -/
def getCell (arr : List (List (Option ℚ))) (r c : ℕ) : Option ℚ :=
  (arr.getD r []).getD c none

/-- In-place write of one cell (`arr[row][column] = values[row]`). -/
def setCell (arr : List (List (Option ℚ))) (r c : ℕ) (v : Option ℚ) :
    List (List (Option ℚ)) :=
  arr.modify (fun row => row.set c v) r

/-- `np.where(np.isnan(arr))` in row-major order: the positions of the
missing cells. -/
def nanIndices (arr : List (List (Option ℚ))) : List (ℕ × ℕ) :=
  arr.enum.flatMap
    (fun p => p.2.enum.filterMap (fun q => if q.2.isNone then some (p.1, q.1) else none))

/-- `replace_nan_with_other_column` (preprocessing.py lines 12-26): loop over
the missing positions, replacing each with the same row's value from the
anchor column. -/
def replace_nan_with_other_column (arr : List (List (Option ℚ)))
    (values : List (Option ℚ)) : List (List (Option ℚ)) :=
  (nanIndices arr).foldl (fun a rc => setCell a rc.1 rc.2 (values.getD rc.1 none)) arr

/-- One dataframe row as seen by the substitution part of
`preprocess_dataframe`: the hand/face coordinate cells that may be missing,
their per-row anchors (`pose_15`/`pose_16` wrist and `pose_0` nose columns,
x and y separately), the shoulder columns feeding the root midpoint, and the
root columns it fills. -/
structure PRow where
  leftHandX : List (Option ℚ)
  leftHandY : List (Option ℚ)
  rightHandX : List (Option ℚ)
  rightHandY : List (Option ℚ)
  faceX : List (Option ℚ)
  faceY : List (Option ℚ)
  leftWristX : Option ℚ
  leftWristY : Option ℚ
  rightWristX : Option ℚ
  rightWristY : Option ℚ
  noseX : Option ℚ
  noseY : Option ℚ
  leftShoulderX : ℚ
  leftShoulderY : ℚ
  rightShoulderX : ℚ
  rightShoulderY : ℚ
  rootX : Option ℚ
  rootY : Option ℚ
deriving DecidableEq, Repr, Inhabited

/-- The six substituted column blocks of `preprocess_dataframe` (lines
66-82), each produced by `replace_nan_with_other_column` with its anchor
column. -/
structure SubResult where
  lhx : List (List (Option ℚ))
  lhy : List (List (Option ℚ))
  rhx : List (List (Option ℚ))
  rhy : List (List (Option ℚ))
  fx : List (List (Option ℚ))
  fy : List (List (Option ℚ))
deriving DecidableEq, Repr

/-- The substitution stage of `preprocess_dataframe` (preprocessing.py lines
66-82): left-hand columns filled from the left wrist, right-hand columns
from the right wrist, face columns from the nose, x and y separately. -/
def preprocess_dataframe_substitution (df : List PRow) : SubResult :=
  { lhx := replace_nan_with_other_column (df.map (fun r => r.leftHandX)) (df.map (fun r => r.leftWristX))
    lhy := replace_nan_with_other_column (df.map (fun r => r.leftHandY)) (df.map (fun r => r.leftWristY))
    rhx := replace_nan_with_other_column (df.map (fun r => r.rightHandX)) (df.map (fun r => r.rightWristX))
    rhy := replace_nan_with_other_column (df.map (fun r => r.rightHandY)) (df.map (fun r => r.rightWristY))
    fx := replace_nan_with_other_column (df.map (fun r => r.faceX)) (df.map (fun r => r.noseX))
    fy := replace_nan_with_other_column (df.map (fun r => r.faceY)) (df.map (fun r => r.noseY)) }

/-! ### Mutation model for the copy discipline (claim about frame effects)

Python dataframes live in a heap; a function receives a reference.  The
heap is a list of tables, a reference an index.  Each modelled function
first appends a copy of its argument (`dataframe = dataframe.copy()`,
preprocessing.py lines 30, 103, 126) and then performs its `df.loc[...]`
assignments as indexed writes on the copy only. -/

/-- One in-place table write (`df.loc[...] = ...`) at heap index `i`. -/
def storeWrite (s : List α) (i : ℕ) (t : α) : List α :=
  s.set i t

/-- Generic lens-directed substitution write of `preprocess_dataframe`:
rebuild the rows with the block produced by `replace_nan_with_other_column`
written back through `set` (`dataframe.loc[:, cols] = ...`). -/
def substGroup (get : PRow → List (Option ℚ)) (set : PRow → List (Option ℚ) → PRow)
    (anchor : PRow → Option ℚ) (df : List PRow) : List PRow :=
  let mat := replace_nan_with_other_column (df.map get) (df.map anchor)
  df.enum.map (fun p => set p.2 (mat.getD p.1 (get p.2)))

/-- The root-column assignment of `preprocess_dataframe` (lines 53-57):
shoulder midpoints. -/
def addRoot (df : List PRow) : List PRow :=
  df.map (fun r =>
    { r with rootX := some ((r.leftShoulderX + r.rightShoulderX) / 2),
             rootY := some ((r.leftShoulderY + r.rightShoulderY) / 2) })

/-- `preprocess_dataframe` on the heap: copy the argument, then write the
root columns and the six substituted column blocks into the copy; returns
the heap and the reference of the new table. -/
def preprocess_dataframe_st (s : List (List PRow)) (i : ℕ) :
    List (List PRow) × ℕ :=
  let j := s.length
  let s1 := s ++ [s.getD i []]
  let s2 := storeWrite s1 j (addRoot (s1.getD j []))
  let s3 := storeWrite s2 j (substGroup (fun r => r.leftHandX) (fun r v => { r with leftHandX := v }) (fun r => r.leftWristX) (s2.getD j []))
  let s4 := storeWrite s3 j (substGroup (fun r => r.leftHandY) (fun r v => { r with leftHandY := v }) (fun r => r.leftWristY) (s3.getD j []))
  let s5 := storeWrite s4 j (substGroup (fun r => r.rightHandX) (fun r v => { r with rightHandX := v }) (fun r => r.rightWristX) (s4.getD j []))
  let s6 := storeWrite s5 j (substGroup (fun r => r.rightHandY) (fun r v => { r with rightHandY := v }) (fun r => r.rightWristY) (s5.getD j []))
  let s7 := storeWrite s6 j (substGroup (fun r => r.faceX) (fun r v => { r with faceX := v }) (fun r => r.noseX) (s6.getD j []))
  let s8 := storeWrite s7 j (substGroup (fun r => r.faceY) (fun r v => { r with faceY := v }) (fun r => r.noseY) (s7.getD j []))
  (s8, j)

/-- `normalize_dataframe_legacy` on the heap: copy the argument, then write
the x shift, the y shift and the per-video scaling into the copy. -/
def normalize_dataframe_legacy_st (s : List (List DFRow)) (i : ℕ) :
    List (List DFRow) × ℕ :=
  let j := s.length
  let s1 := s ++ [s.getD i []]
  let s2 := storeWrite s1 j (legacyShiftX (s1.getD j []))
  let s3 := storeWrite s2 j (legacyShiftY (s2.getD j []))
  let s4 := storeWrite s3 j (legacyScale (s3.getD j []))
  (s4, j)

/-- `normalize_dataframe_from_neg1_to_1` on the heap: copy the argument,
write the two centering assignments into the copy, and return the scaled
table computed from the copy (the division writes NaN-capable float columns,
modelled as the returned `Option`-cell table). -/
def normalize_dataframe_from_neg1_to_1_st (s : List (List DFRow)) (i : ℕ) :
    List (List DFRow) × List (List (Option ℚ) × List (Option ℚ)) :=
  let j := s.length
  let s1 := s ++ [s.getD i []]
  let s2 := storeWrite s1 j (centerX (s1.getD j []))
  let s3 := storeWrite s2 j (centerY (s2.getD j []))
  (s3, scaleNeg1To1 (s3.getD j []))

/-! ## Helper lemmas -/

theorem foldl_max_init {α : Type} [LinearOrder α] (a : α) (t : List α) :
    a ≤ t.foldl max a := by
  induction t generalizing a with
  | nil => exact le_refl a
  | cons b t ih => exact le_trans (le_max_left a b) (ih (max a b))

theorem foldl_max_le_of_mem {α : Type} [LinearOrder α] {v : α} (a : α) {t : List α}
    (hv : v ∈ t) : v ≤ t.foldl max a := by
  induction t generalizing a with
  | nil => cases hv
  | cons b t ih =>
    rcases List.mem_cons.mp hv with h | h
    · subst h
      exact le_trans (le_max_right a v) (foldl_max_init (max a v) t)
    · exact ih (max a b) h

theorem foldl_max_choice {α : Type} [LinearOrder α] (a : α) (t : List α) :
    t.foldl max a = a ∨ t.foldl max a ∈ t := by
  induction t generalizing a with
  | nil => exact Or.inl rfl
  | cons b t ih =>
    rcases ih (max a b) with h | h
    · rcases max_choice a b with hm | hm
      · exact Or.inl (by rw [List.foldl_cons, h, hm])
      · exact Or.inr (by rw [List.foldl_cons, h, hm]; exact List.mem_cons_self b t)
    · exact Or.inr (List.mem_cons_of_mem b h)

theorem foldl_max_le {α : Type} [LinearOrder α] {b : α} (a : α) (t : List α)
    (ha : a ≤ b) (ht : ∀ v ∈ t, v ≤ b) : t.foldl max a ≤ b := by
  induction t generalizing a with
  | nil => exact ha
  | cons c t ih =>
    exact ih (max a c) (max_le ha (ht c (List.mem_cons_self c t)))
      (fun v hv => ht v (List.mem_cons_of_mem c hv))

theorem foldl_min_le_init {α : Type} [LinearOrder α] (a : α) (t : List α) :
    t.foldl min a ≤ a := by
  induction t generalizing a with
  | nil => exact le_refl a
  | cons b t ih => exact le_trans (ih (min a b)) (min_le_left a b)

theorem foldl_min_le_of_mem {α : Type} [LinearOrder α] {v : α} (a : α) {t : List α}
    (hv : v ∈ t) : t.foldl min a ≤ v := by
  induction t generalizing a with
  | nil => cases hv
  | cons b t ih =>
    rcases List.mem_cons.mp hv with h | h
    · subst h
      exact le_trans (foldl_min_le_init (min a v) t) (min_le_right a v)
    · exact ih (min a b) h

theorem le_listMax {v : ℚ} {l : List ℚ} (hv : v ∈ l) : v ≤ listMax l := by
  cases l with
  | nil => cases hv
  | cons a t =>
    rcases List.mem_cons.mp hv with h | h
    · subst h; exact foldl_max_init v t
    · exact foldl_max_le_of_mem a h

theorem listMax_mem {l : List ℚ} (h : l ≠ []) : listMax l ∈ l := by
  cases l with
  | nil => exact absurd rfl h
  | cons a t =>
    rcases foldl_max_choice a t with hc | hc
    · rw [listMax, hc]; exact List.mem_cons_self a t
    · exact List.mem_cons_of_mem a hc

theorem listMax_le {b : ℚ} {l : List ℚ} (hb : 0 ≤ b) (hl : ∀ v ∈ l, v ≤ b) :
    listMax l ≤ b := by
  cases l with
  | nil => exact hb
  | cons a t =>
    exact foldl_max_le a t (hl a (List.mem_cons_self a t))
      (fun v hv => hl v (List.mem_cons_of_mem a hv))

theorem listMin_le {v : ℚ} {l : List ℚ} (hv : v ∈ l) : listMin l ≤ v := by
  cases l with
  | nil => cases hv
  | cons a t =>
    rcases List.mem_cons.mp hv with h | h
    · subst h; exact foldl_min_le_init v t
    · exact foldl_min_le_of_mem a h

theorem abs_le_maxAbs {v : ℚ} {l : List ℚ} (hv : v ∈ l) : |v| ≤ maxAbs l :=
  le_listMax (List.mem_map_of_mem (fun x => |x|) hv)

theorem maxAbs_nonneg (l : List ℚ) : 0 ≤ maxAbs l := by
  cases l with
  | nil => exact le_refl 0
  | cons a t =>
    exact le_trans (abs_nonneg a) (abs_le_maxAbs (List.mem_cons_self a t))

theorem maxAbs_exists_mem {l : List ℚ} (h : l ≠ []) : ∃ v ∈ l, |v| = maxAbs l := by
  have hmem : listMax (l.map (fun x => |x|)) ∈ l.map (fun x => |x|) :=
    listMax_mem (by simpa using h)
  rcases List.mem_map.mp hmem with ⟨v, hv, he⟩
  exact ⟨v, hv, he⟩

theorem maxAbs_le {b : ℚ} {l : List ℚ} (hb : 0 ≤ b) (hl : ∀ v ∈ l, |v| ≤ b) :
    maxAbs l ≤ b := by
  refine listMax_le hb ?_
  intro v hv
  rcases List.mem_map.mp hv with ⟨w, hw, he⟩
  exact he ▸ hl w hw

/-- Dividing every entry of a list by its own maximum absolute value yields a
list whose maximum absolute value is exactly `1`, provided that maximum is
nonzero. -/
theorem maxAbs_div_self {l : List ℚ} (h : maxAbs l ≠ 0) :
    maxAbs (l.map (fun v => v / maxAbs l)) = 1 := by
  have hpos : 0 < maxAbs l := lt_of_le_of_ne (maxAbs_nonneg l) (Ne.symm h)
  have hne : l ≠ [] := by
    intro hl; subst hl; exact h rfl
  apply le_antisymm
  · refine maxAbs_le zero_le_one ?_
    intro v hv
    rcases List.mem_map.mp hv with ⟨w, hw, he⟩
    subst he
    rw [abs_div, abs_of_pos hpos, div_le_one hpos]
    exact abs_le_maxAbs hw
  · rcases maxAbs_exists_mem hne with ⟨v, hv, he⟩
    have : |v / maxAbs l| = 1 := by
      rw [abs_div, abs_of_pos hpos, he, div_self h]
    calc (1 : ℚ) = |v / maxAbs l| := this.symm
      _ ≤ maxAbs (l.map (fun v => v / maxAbs l)) :=
        abs_le_maxAbs (List.mem_map_of_mem _ hv)

theorem getD_mem_of_lt {α : Type} (l : List α) (i : ℕ) (d : α) (h : i < l.length) :
    l.getD i d ∈ l := by
  rw [List.getD_eq_getElem?_getD, List.getElem?_eq_getElem h]
  exact List.getElem_mem h

theorem getD_map_of_lt {α β : Type} (f : α → β) (l : List α) (i : ℕ) (d : β) (d0 : α)
    (h : i < l.length) : (l.map f).getD i d = f (l.getD i d0) := by
  rw [List.getD_eq_getElem?_getD, List.getD_eq_getElem?_getD, List.getElem?_map,
    List.getElem?_eq_getElem h]
  rfl

theorem getD_append_left {α : Type} (l l' : List α) (i : ℕ) (d : α) (h : i < l.length) :
    (l ++ l').getD i d = l.getD i d := by
  rw [List.getD_eq_getElem?_getD, List.getD_eq_getElem?_getD,
    List.getElem?_append_left h]

theorem getD_set_ne {α : Type} (l : List α) (i j : ℕ) (t : α) (d : α) (h : j ≠ i) :
    (l.set j t).getD i d = l.getD i d := by
  rw [List.getD_eq_getElem?_getD, List.getD_eq_getElem?_getD,
    List.getElem?_set_ne h]

theorem exists_of_mem_zipWith {α β γ : Type} {f : α → β → γ} {x : γ} :
    ∀ {l1 : List α} {l2 : List β}, x ∈ List.zipWith f l1 l2 →
      ∃ a ∈ l1, ∃ b ∈ l2, x = f a b := by
  intro l1
  induction l1 with
  | nil => intro l2 h; cases h
  | cons a t ih =>
    intro l2 h
    cases l2 with
    | nil => cases h
    | cons b t2 =>
      rcases List.mem_cons.mp h with h | h
      · exact ⟨a, List.mem_cons_self a t, b, List.mem_cons_self b t2, h⟩
      · rcases ih h with ⟨a', ha, b', hb, he⟩
        exact ⟨a', List.mem_cons_of_mem a ha, b', List.mem_cons_of_mem b hb, he⟩

theorem lerpFrame_wf {w c : ℕ} {fa fb : List (List ℚ)}
    (ha : fa.length = w ∧ ∀ px ∈ fa, px.length = c)
    (hb : fb.length = w ∧ ∀ px ∈ fb, px.length = c) (t : ℚ) :
    (lerpFrame t fa fb).length = w ∧ ∀ px ∈ lerpFrame t fa fb, px.length = c := by
  constructor
  · simp [lerpFrame, List.length_zipWith, ha.1, hb.1]
  · intro px hpx
    rcases exists_of_mem_zipWith hpx with ⟨ra, hra, rb, hrb, he⟩
    subst he
    simp [List.length_zipWith, ha.2 ra hra, hb.2 rb hrb]

theorem resizeFrame_wf (w c frames i : ℕ) {images : List (List (List ℚ))}
    (hwf : Imgwf w c images) (hlen : 0 < images.length) :
    (resizeFrame images frames i).length = w ∧
      ∀ px ∈ resizeFrame images frames i, px.length = c := by
  have e : resizeFrame images frames i = lerpFrame
      (resizeSrc images.length frames i - ((⌊resizeSrc images.length frames i⌋ : ℤ) : ℚ))
      (images.getD (min ((⌊resizeSrc images.length frames i⌋).toNat) (images.length - 1)) [])
      (images.getD (min (min ((⌊resizeSrc images.length frames i⌋).toNat) (images.length - 1) + 1) (images.length - 1)) []) := rfl
  rw [e]
  exact lerpFrame_wf (hwf _ (getD_mem_of_lt _ _ _ (by omega)))
    (hwf _ (getD_mem_of_lt _ _ _ (by omega))) _

/-- C5: applying `PadIfLessThan` with target `frames` and then
`ResizeIfMoreThan` with the same target yields a batch element with exactly
`frames` frames, for every non-negative input frame count; the composition
is the identity when the input frame count already equals the target; and
the joint and channel axes are unchanged in all cases (every output frame
still has `w` joints of `c` channel values). -/
theorem C5_pad_then_resize (frames w c : ℕ) (images : List (List (List ℚ)))
    (hwf : Imgwf w c images) :
    (ResizeIfMoreThan.call frames (PadIfLessThan.call frames w c images)).length = frames ∧
    (images.length = frames →
      ResizeIfMoreThan.call frames (PadIfLessThan.call frames w c images) = images) ∧
    Imgwf w c (ResizeIfMoreThan.call frames (PadIfLessThan.call frames w c images)) := by
  by_cases hlt : frames < images.length
  · have hzero : frames - images.length = 0 := by omega
    have hpad : PadIfLessThan.call frames w c images = images := by
      simp [PadIfLessThan.call, hzero]
    have hres : ResizeIfMoreThan.call frames (PadIfLessThan.call frames w c images)
        = bilinearResize frames images := by
      rw [hpad, ResizeIfMoreThan.call, if_pos hlt]
    refine ⟨?_, ?_, ?_⟩
    · rw [hres]; simp [bilinearResize]
    · intro he; omega
    · rw [hres]
      intro fr hfr
      rcases List.mem_map.mp hfr with ⟨i, _, hfe⟩
      subst hfe
      exact resizeFrame_wf w c frames i hwf (by omega)
  · have hplen : (PadIfLessThan.call frames w c images).length = frames := by
      simp [PadIfLessThan.call]; omega
    have hres : ResizeIfMoreThan.call frames (PadIfLessThan.call frames w c images)
        = PadIfLessThan.call frames w c images := by
      rw [ResizeIfMoreThan.call, if_neg (by omega)]
    refine ⟨by rw [hres, hplen], ?_, ?_⟩
    · intro he
      rw [hres, PadIfLessThan.call, he, Nat.sub_self, List.replicate_zero, List.append_nil]
    · rw [hres]
      intro fr hfr
      rcases List.mem_append.mp hfr with h | h
      · exact hwf fr h
      · have he : fr = zeroFrame w c := List.eq_of_mem_replicate h
        subst he
        constructor
        · simp [zeroFrame]
        · intro px hpx
          have : px = List.replicate c (0 : ℚ) := List.eq_of_mem_replicate hpx
          simp [this]

/-- Witness for C5 at a concrete 3-frame element with target 2. -/
theorem C5_pad_then_resize_witness :
    Imgwf 1 1 [[[(3:ℚ)]], [[4]], [[5]]] ∧
    ((ResizeIfMoreThan.call 2 (PadIfLessThan.call 2 1 1 [[[(3:ℚ)]], [[4]], [[5]]])).length = 2 ∧
    (([[[(3:ℚ)]], [[4]], [[5]]] : List (List (List ℚ))).length = 2 →
      ResizeIfMoreThan.call 2 (PadIfLessThan.call 2 1 1 [[[(3:ℚ)]], [[4]], [[5]]]) = [[[(3:ℚ)]], [[4]], [[5]]]) ∧
    Imgwf 1 1 (ResizeIfMoreThan.call 2 (PadIfLessThan.call 2 1 1 [[[(3:ℚ)]], [[4]], [[5]]]))) :=
  ⟨by unfold Imgwf; decide, C5_pad_then_resize 2 1 1 [[[(3:ℚ)]], [[4]], [[5]]] (by unfold Imgwf; decide)⟩

/-- C7: both levels of `TranslationScaleInvariant` map every element of a
non-degenerate channel (or per-joint channel slice) into `[0, 1]`, and every
element whose min-max range is degenerate yields exactly `0` (the
`divide_no_nan` kernel), never a non-finite value. -/
theorem C7_translation_scale_invariant :
    (∀ ch : List (List ℚ), ∀ row ∈ channel_level_translation_scale_invariant ch, ∀ v ∈ row,
      (channelMax ch ≠ channelMin ch → 0 ≤ v ∧ v ≤ 1) ∧
      (channelMax ch = channelMin ch → v = 0)) ∧
    (∀ ch : List (List ℚ), ∀ i j : ℕ, i < ch.length → j < (ch.getD i []).length →
      ((joint_level_translation_scale_invariant ch).getD i []).getD j 0 =
        divide_no_nan ((ch.getD i []).getD j 0 - jointMin ch j) (jointMax ch j - jointMin ch j) ∧
      (jointMax ch j ≠ jointMin ch j →
        0 ≤ ((joint_level_translation_scale_invariant ch).getD i []).getD j 0 ∧
        ((joint_level_translation_scale_invariant ch).getD i []).getD j 0 ≤ 1) ∧
      (jointMax ch j = jointMin ch j →
        ((joint_level_translation_scale_invariant ch).getD i []).getD j 0 = 0)) := by
  constructor
  · intro ch row hrow v hv
    rcases List.mem_map.mp hrow with ⟨row0, hrow0, he⟩
    subst he
    rcases List.mem_map.mp hv with ⟨w, hw, he⟩
    subst he
    have hwmem : w ∈ ch.flatten := List.mem_flatten.mpr ⟨row0, hrow0, hw⟩
    have hmn : channelMin ch ≤ w := listMin_le hwmem
    have hmx : w ≤ channelMax ch := le_listMax hwmem
    constructor
    · intro hne
      have hd : channelMax ch - channelMin ch ≠ 0 := by
        intro h0
        exact hne (by linarith [sub_eq_zero.mp h0])
      have hdpos : 0 < channelMax ch - channelMin ch :=
        lt_of_le_of_ne (by linarith) (Ne.symm hd)
      rw [divide_no_nan, if_neg hd]
      exact ⟨div_nonneg (by linarith) (by linarith),
        by rw [div_le_one hdpos]; linarith⟩
    · intro heq
      rw [divide_no_nan, if_pos (by rw [heq, sub_self])]
  · intro ch i j hi hj
    have hrowi : (joint_level_translation_scale_invariant ch).getD i [] =
        ((ch.getD i []).enum).map
          (fun p => divide_no_nan (p.2 - jointMin ch p.1) (jointMax ch p.1 - jointMin ch p.1)) :=
      getD_map_of_lt _ ch i [] [] hi
    have hlene : ((ch.getD i []).enum).length = (ch.getD i []).length := by
      simp
    have hcell : (((ch.getD i []).enum).map
          (fun p => divide_no_nan (p.2 - jointMin ch p.1) (jointMax ch p.1 - jointMin ch p.1))).getD j 0
        = divide_no_nan ((ch.getD i []).getD j 0 - jointMin ch j)
            (jointMax ch j - jointMin ch j) := by
      have hje : j < ((ch.getD i []).enum).length := by rw [hlene]; exact hj
      rw [getD_map_of_lt _ _ j 0 (0, 0) hje]
      have henum : ((ch.getD i []).enum).getD j (0, 0) = (j, (ch.getD i []).getD j 0) := by
        generalize (ch.getD i []) = row at hj ⊢
        rw [List.getD_eq_getElem?_getD, List.getD_eq_getElem?_getD, List.getElem?_enum,
          List.getElem?_eq_getElem hj]
        rfl
      rw [henum]
    have hval : ((joint_level_translation_scale_invariant ch).getD i []).getD j 0 =
        divide_no_nan ((ch.getD i []).getD j 0 - jointMin ch j)
          (jointMax ch j - jointMin ch j) := by
      rw [hrowi, hcell]
    have hwmem : (ch.getD i []).getD j 0 ∈ jointColumn ch j :=
      List.mem_map_of_mem (fun row => row.getD j 0) (getD_mem_of_lt ch i [] hi)
    have hmn : jointMin ch j ≤ (ch.getD i []).getD j 0 := listMin_le hwmem
    have hmx : (ch.getD i []).getD j 0 ≤ jointMax ch j := le_listMax hwmem
    refine ⟨hval, ?_, ?_⟩
    · intro hne
      have hd : jointMax ch j - jointMin ch j ≠ 0 := by
        intro h0
        exact hne (by linarith [sub_eq_zero.mp h0])
      have hdpos : 0 < jointMax ch j - jointMin ch j :=
        lt_of_le_of_ne (by linarith) (Ne.symm hd)
      rw [hval, divide_no_nan, if_neg hd]
      exact ⟨div_nonneg (by linarith) (by linarith),
        by rw [div_le_one hdpos]; linarith⟩
    · intro heq
      rw [hval, divide_no_nan, if_pos (by rw [heq, sub_self])]

/-- Witness for C7 at a concrete 2×2 channel plane. -/
theorem C7_translation_scale_invariant_witness :
    0 ≤ ((joint_level_translation_scale_invariant [[0, 2], [4, 6]]).getD 0 []).getD 0 0 ∧
    ((joint_level_translation_scale_invariant [[0, 2], [4, 6]]).getD 0 []).getD 0 0 ≤ 1 :=
  (C7_translation_scale_invariant.2 [[0, 2], [4, 6]] 0 0 (by decide) (by decide)).2.1 (by decide)

/-- C2: every call to `Dataset.get_training_set`, `Dataset.get_validation_set`
or `Dataset.get_testing_set` (with a test table supplied) fails with the
`TypeError` raised when the `normalization` keyword is bound against
`preprocess_dataframe`'s parameter list, before any dataset pipeline is
delivered. -/
theorem C2_normalization_kwarg_type_error :
    (∀ augmentations : List String, Dataset.get_training_set augmentations =
      Except.error "TypeError: preprocess_dataframe() got an unexpected keyword argument normalization") ∧
    Dataset.get_validation_set =
      Except.error "TypeError: preprocess_dataframe() got an unexpected keyword argument normalization" ∧
    Dataset.get_testing_set true =
      Except.error "TypeError: preprocess_dataframe() got an unexpected keyword argument normalization" :=
  ⟨fun _ => rfl, rfl, rfl⟩

/-- Witness for C2 at a concrete augmentation list. -/
theorem C2_normalization_kwarg_type_error_witness :
    Dataset.get_training_set ["flip"] =
      Except.error "TypeError: preprocess_dataframe() got an unexpected keyword argument normalization" :=
  C2_normalization_kwarg_type_error.1 ["flip"]

/-- C8: the three configuration errors are raised explicitly, with no silent
fallback: `normalize_dataframe` with an unknown mode, the augmentation
catalog lookup with an unknown name, and `Dataset.get_testing_set` without a
test table. -/
theorem C8_config_errors :
    (∀ (df : List DFRow) (mode : String), mode ≠ "neg1_to_1" → mode ≠ "legacy" →
      normalize_dataframe df mode = Except.error ("Unknown normalization: " ++ mode)) ∧
    (∀ (augmentations : List String) (a : String), a ∈ augmentations →
      a ∉ available_augmentations →
      ∃ e, buildAugmentationLayers augmentations = Except.error e) ∧
    Dataset.get_testing_set false = Except.error "Test dataframe was not provided" := by
  refine ⟨?_, ?_, rfl⟩
  · intro df mode h1 h2
    rw [normalize_dataframe, if_neg h1, if_neg h2]
  · intro augmentations a ha hna
    induction augmentations with
    | nil => cases ha
    | cons b t ih =>
      by_cases hb : available_augmentations.contains b
      · rcases List.mem_cons.mp ha with he | ht
        · subst he
          exact absurd (by simpa using hb) hna
        · rcases ih ht with ⟨e, he⟩
          refine ⟨e, ?_⟩
          simp only [buildAugmentationLayers, if_pos hb, he]
      · exact ⟨"KeyError: " ++ b, by simp only [buildAugmentationLayers, if_neg hb]⟩

/-- Witness for C8 at a concrete unknown mode and unknown augmentation name. -/
theorem C8_config_errors_witness :
    normalize_dataframe [] "foo" = Except.error ("Unknown normalization: " ++ "foo") ∧
    (∃ e, buildAugmentationLayers ["bogus"] = Except.error e) :=
  ⟨C8_config_errors.1 [] "foo" (by decide) (by decide),
   C8_config_errors.2.1 ["bogus"] "bogus" (by decide) (by decide)⟩

/-- Row-level description of `normalize_dataframe_from_neg1_to_1`. -/
theorem neg1to1_row_eq (df : List DFRow) (i : ℕ) (hi : i < df.length) :
    (normalize_dataframe_from_neg1_to_1 df).getD i ([], []) =
      (((df.getD i default).xs.map (fun v => v - (df.getD i default).rootX)).map
        (fun v => pdiv v (maxAbs
          (((df.getD i default).xs.map (fun v => v - (df.getD i default).rootX)) ++
           ((df.getD i default).ys.map (fun v => v - (df.getD i default).rootY))))),
       ((df.getD i default).ys.map (fun v => v - (df.getD i default).rootY)).map
        (fun v => pdiv v (maxAbs
          (((df.getD i default).xs.map (fun v => v - (df.getD i default).rootX)) ++
           ((df.getD i default).ys.map (fun v => v - (df.getD i default).rootY)))))) := by
  have h1 : (centerX df).length = df.length := by simp [centerX]
  have h2 : (centerY (centerX df)).length = df.length := by simp [centerY, h1]
  have e1 : (centerX df).getD i default =
      { df.getD i default with xs := (df.getD i default).xs.map (fun v => v - (df.getD i default).rootX) } :=
    getD_map_of_lt _ df i default default hi
  have e2 : (centerY (centerX df)).getD i default =
      { (centerX df).getD i default with
          ys := ((centerX df).getD i default).ys.map (fun v => v - ((centerX df).getD i default).rootY) } :=
    getD_map_of_lt _ (centerX df) i default default (by rw [h1]; exact hi)
  have e3 : (normalize_dataframe_from_neg1_to_1 df).getD i ([], []) =
      (((centerY (centerX df)).getD i default).xs.map
        (fun v => pdiv v (rowScale ((centerY (centerX df)).getD i default))),
       ((centerY (centerX df)).getD i default).ys.map
        (fun v => pdiv v (rowScale ((centerY (centerX df)).getD i default)))) :=
    getD_map_of_lt _ (centerY (centerX df)) i ([], []) default (by rw [h2]; exact hi)
  rw [e3, e2, e1]
  rfl

/-- C6 (amended): after neg1to1 normalization, a row whose coordinates are
not all zero after root-centering has maximum absolute coordinate value
exactly `1` (all cells finite); a row that is all-zero after root-centering
comes out with every cell non-finite (NaN from the zero denominator), not
`0`. -/
theorem C6_neg1to1_row_max (df : List DFRow) (i : ℕ) (hi : i < df.length)
    (cxs cys : List ℚ)
    (hcxs : cxs = (df.getD i default).xs.map (fun v => v - (df.getD i default).rootX))
    (hcys : cys = (df.getD i default).ys.map (fun v => v - (df.getD i default).rootY)) :
    (maxAbs (cxs ++ cys) ≠ 0 →
      (normalize_dataframe_from_neg1_to_1 df).getD i ([], []) =
        (cxs.map (fun v => some (v / maxAbs (cxs ++ cys))),
         cys.map (fun v => some (v / maxAbs (cxs ++ cys)))) ∧
      maxAbs ((cxs ++ cys).map (fun v => v / maxAbs (cxs ++ cys))) = 1) ∧
    (maxAbs (cxs ++ cys) = 0 →
      (normalize_dataframe_from_neg1_to_1 df).getD i ([], []) =
        (cxs.map (fun _ => (none : Option ℚ)), cys.map (fun _ => (none : Option ℚ)))) := by
  have hrow := neg1to1_row_eq df i hi
  rw [← hcxs, ← hcys] at hrow
  constructor
  · intro hne
    refine ⟨?_, maxAbs_div_self hne⟩
    rw [hrow,
      List.map_congr_left (fun v _ => by rw [pdiv, if_neg hne] :
        ∀ v ∈ cxs, pdiv v (maxAbs (cxs ++ cys)) = some (v / maxAbs (cxs ++ cys))),
      List.map_congr_left (fun v _ => by rw [pdiv, if_neg hne] :
        ∀ v ∈ cys, pdiv v (maxAbs (cxs ++ cys)) = some (v / maxAbs (cxs ++ cys)))]
  · intro hz
    rw [hrow,
      List.map_congr_left (fun v _ => by rw [pdiv, if_pos hz] :
        ∀ v ∈ cxs, pdiv v (maxAbs (cxs ++ cys)) = (none : Option ℚ)),
      List.map_congr_left (fun v _ => by rw [pdiv, if_pos hz] :
        ∀ v ∈ cys, pdiv v (maxAbs (cxs ++ cys)) = (none : Option ℚ))]

/-- Witness for C6 (amended) at a concrete one-row table with nonzero
centered scale. -/
theorem C6_neg1to1_row_max_witness :
    (normalize_dataframe_from_neg1_to_1 [⟨0, 1, 2, [3, 1], [2]⟩]).getD 0 ([], []) =
      (([2, 0] : List ℚ).map (fun v => some (v / maxAbs (([2, 0] : List ℚ) ++ [0]))),
       ([0] : List ℚ).map (fun v => some (v / maxAbs (([2, 0] : List ℚ) ++ [0])))) ∧
    maxAbs ((([2, 0] : List ℚ) ++ [0]).map (fun v => v / maxAbs (([2, 0] : List ℚ) ++ [0]))) = 1 :=
  (C6_neg1to1_row_max [⟨0, 1, 2, [3, 1], [2]⟩] 0 (by decide) [2, 0] [0]
    (by norm_num) (by norm_num)).1
    (by norm_num [maxAbs, listMax, abs_of_nonneg])

/-- Counterexample to C6 as stated: a row that is all-zero after
root-centering (all coordinates equal to the root) comes out with NaN cells
(`none`), not with the claimed value `0`. -/
theorem C6_counterexample :
    (normalize_dataframe_from_neg1_to_1 [⟨0, 1, 2, [1], [2]⟩]).getD 0 ([], []) =
      ([none], [none]) ∧ (none : Option ℚ) ≠ some 0 := by
  constructor
  · norm_num [normalize_dataframe_from_neg1_to_1, scaleNeg1To1, centerY, centerX,
      rowScale, rowVals, maxAbs, listMax, pdiv]
  · intro h
    cases h

/-- C10: `preprocess_dataframe`, `normalize_dataframe_from_neg1_to_1` and
`normalize_dataframe_legacy` leave the table passed as argument unchanged on
the heap: each copies its argument first and performs all of its writes on
the copy only, returning a new table. -/
theorem C10_no_mutation (sp : List (List PRow)) (sl sn : List (List DFRow))
    (i j k : ℕ) (hi : i < sp.length) (hj : j < sl.length) (hk : k < sn.length) :
    (preprocess_dataframe_st sp i).1.getD i [] = sp.getD i [] ∧
    (normalize_dataframe_legacy_st sl j).1.getD j [] = sl.getD j [] ∧
    (normalize_dataframe_from_neg1_to_1_st sn k).1.getD k [] = sn.getD k [] := by
  refine ⟨?_, ?_, ?_⟩
  · have hne : sp.length ≠ i := by omega
    simp only [preprocess_dataframe_st, storeWrite]
    rw [getD_set_ne _ _ _ _ _ hne, getD_set_ne _ _ _ _ _ hne, getD_set_ne _ _ _ _ _ hne,
      getD_set_ne _ _ _ _ _ hne, getD_set_ne _ _ _ _ _ hne, getD_set_ne _ _ _ _ _ hne,
      getD_set_ne _ _ _ _ _ hne, getD_append_left _ _ _ _ hi]
  · have hne : sl.length ≠ j := by omega
    simp only [normalize_dataframe_legacy_st, storeWrite]
    rw [getD_set_ne _ _ _ _ _ hne, getD_set_ne _ _ _ _ _ hne, getD_set_ne _ _ _ _ _ hne,
      getD_append_left _ _ _ _ hj]
  · have hne : sn.length ≠ k := by omega
    simp only [normalize_dataframe_from_neg1_to_1_st, storeWrite]
    rw [getD_set_ne _ _ _ _ _ hne, getD_set_ne _ _ _ _ _ hne,
      getD_append_left _ _ _ _ hk]

/-- Witness for C10 at concrete singleton heaps. -/
theorem C10_no_mutation_witness :
    (preprocess_dataframe_st [[(default : PRow)]] 0).1.getD 0 [] = [[(default : PRow)]].getD 0 [] ∧
    (normalize_dataframe_legacy_st [[⟨0, 0, 0, [1], [2]⟩]] 0).1.getD 0 [] =
      [[(⟨0, 0, 0, [1], [2]⟩ : DFRow)]].getD 0 [] ∧
    (normalize_dataframe_from_neg1_to_1_st [[⟨1, 2, 3, [4], [5]⟩]] 0).1.getD 0 [] =
      [[(⟨1, 2, 3, [4], [5]⟩ : DFRow)]].getD 0 [] :=
  C10_no_mutation [[(default : PRow)]] [[⟨0, 0, 0, [1], [2]⟩]] [[⟨1, 2, 3, [4], [5]⟩]]
    0 0 0 (by decide) (by decide) (by decide)

theorem setCell_length (a : List (List (Option ℚ))) (r c : ℕ) (v : Option ℚ) :
    (setCell a r c v).length = a.length := by
  simp [setCell, List.length_modify]

theorem setCell_row_length (a : List (List (Option ℚ))) (r c : ℕ) (v : Option ℚ) (i : ℕ) :
    ((setCell a r c v).getD i []).length = (a.getD i []).length := by
  rw [setCell, List.getD_eq_getElem?_getD, List.getD_eq_getElem?_getD, List.getElem?_modify]
  cases h : a[i]? with
  | none => rfl
  | some row =>
    show ((if r = i then row.set c v else row)).length = row.length
    split
    · exact List.length_set row c v
    · rfl

theorem getD_set_spec (l : List (Option ℚ)) (c c' : ℕ) (v : Option ℚ) :
    (l.set c v).getD c' none = if c = c' ∧ c < l.length then v else l.getD c' none := by
  rw [List.getD_eq_getElem?_getD, List.getElem?_set, List.getD_eq_getElem?_getD]
  by_cases h1 : c = c'
  · subst h1
    by_cases h2 : c < l.length
    · rw [if_pos rfl, if_pos h2, if_pos ⟨rfl, h2⟩]
      rfl
    · rw [if_pos rfl, if_neg h2, if_neg (fun hh => h2 hh.2),
        List.getElem?_eq_none (by omega)]
  · rw [if_neg h1, if_neg (fun hh => h1 hh.1)]

theorem getCell_setCell (a : List (List (Option ℚ))) :
    ∀ (r r' c c' : ℕ) (v : Option ℚ),
    getCell (setCell a r c v) r' c' =
      if r = r' ∧ c = c' ∧ r < a.length ∧ c < (a.getD r []).length then v
      else getCell a r' c' := by
  induction a with
  | nil =>
    intro r r' c c' v
    have hset : setCell ([] : List (List (Option ℚ))) r c v = [] := by
      cases r <;> rfl
    rw [hset, if_neg (fun hh => Nat.not_lt_zero r hh.2.2.1)]
  | cons row t ih =>
    intro r r' c c' v
    cases r with
    | zero =>
      have hset : setCell (row :: t) 0 c v = (row.set c v) :: t := rfl
      rw [hset]
      cases r' with
      | zero =>
        show (row.set c v).getD c' none = _
        rw [getD_set_spec]
        by_cases hcc : c = c' ∧ c < row.length
        · rw [if_pos hcc, if_pos ⟨rfl, hcc.1, Nat.succ_pos _, by
            rw [List.getD_cons_zero]; exact hcc.2⟩]
        · rw [if_neg hcc, if_neg (fun hh => hcc ⟨hh.2.1, by
            have := hh.2.2.2
            rw [List.getD_cons_zero] at this
            exact this⟩)]
          rfl
      | succ r' =>
        rw [if_neg (fun hh => Nat.succ_ne_zero r' hh.1.symm)]
        rfl
    | succ r =>
      have hset : setCell (row :: t) (r + 1) c v = row :: setCell t r c v := rfl
      rw [hset]
      cases r' with
      | zero =>
        rw [if_neg (fun hh => Nat.succ_ne_zero r hh.1)]
        rfl
      | succ r' =>
        show getCell (setCell t r c v) r' c' = _
        rw [ih r r' c c' v]
        by_cases hc1 : r = r' ∧ c = c' ∧ r < t.length ∧ c < (t.getD r []).length
        · rw [if_pos hc1, if_pos ⟨by omega, hc1.2.1, by simp; omega, by
            rw [List.getD_cons_succ]; exact hc1.2.2.2⟩]
        · rw [if_neg hc1, if_neg (fun hh => hc1 ⟨by omega, hh.2.1, by
            have := hh.2.2.1; simp at this; omega, by
            have := hh.2.2.2
            rw [List.getD_cons_succ] at this
            exact this⟩)]
          rfl

theorem getCell_setCell_ne (a : List (List (Option ℚ))) (r c r' c' : ℕ) (v : Option ℚ)
    (h : r' ≠ r ∨ c' ≠ c) :
    getCell (setCell a r c v) r' c' = getCell a r' c' := by
  rw [getCell_setCell, if_neg (fun hh =>
    h.elim (fun h1 => h1 hh.1.symm) (fun h2 => h2 hh.2.1.symm))]

theorem getCell_setCell_eq (a : List (List (Option ℚ))) (r c : ℕ) (v : Option ℚ)
    (hr : r < a.length) (hc : c < (a.getD r []).length) :
    getCell (setCell a r c v) r c = v := by
  rw [getCell_setCell, if_pos ⟨rfl, rfl, hr, hc⟩]

theorem getCell_setCell_oob (a : List (List (Option ℚ))) (r c : ℕ) (v : Option ℚ)
    (h : ¬(r < a.length ∧ c < (a.getD r []).length)) :
    getCell (setCell a r c v) r c = getCell a r c := by
  rw [getCell_setCell, if_neg (fun hh => h ⟨hh.2.2.1, hh.2.2.2⟩)]

theorem foldl_setCell_spec (values : List (Option ℚ)) (arr : List (List (Option ℚ)))
    (r c : ℕ) :
    ∀ (L : List (ℕ × ℕ)) (a : List (List (Option ℚ))),
      a.length = arr.length →
      (∀ i, (a.getD i []).length = (arr.getD i []).length) →
      getCell (L.foldl (fun x rc => setCell x rc.1 rc.2 (values.getD rc.1 none)) a) r c =
        if (r, c) ∈ L ∧ r < arr.length ∧ c < (arr.getD r []).length
        then values.getD r none else getCell a r c := by
  intro L
  induction L with
  | nil =>
    intro a _ _
    simp
  | cons p t ih =>
    intro a h1 h2
    rw [List.foldl_cons,
      ih (setCell a p.1 p.2 (values.getD p.1 none))
        (by rw [setCell_length, h1])
        (fun i => by rw [setCell_row_length]; exact h2 i)]
    by_cases hm : (r, c) ∈ t ∧ r < arr.length ∧ c < (arr.getD r []).length
    · rw [if_pos hm, if_pos ⟨List.mem_cons_of_mem p hm.1, hm.2⟩]
    · rw [if_neg hm]
      by_cases hp : (r, c) = p
      · subst hp
        by_cases hb : r < arr.length ∧ c < (arr.getD r []).length
        · rw [getCell_setCell_eq a r c _ (by rw [h1]; exact hb.1) (by rw [h2 r]; exact hb.2),
            if_pos ⟨List.mem_cons_self _ t, hb⟩]
        · rw [getCell_setCell_oob a r c _ (by rw [h1, h2 r]; exact hb)]
          rw [if_neg (fun hcon => hb hcon.2)]
      · rw [getCell_setCell_ne a p.1 p.2 r c _
          (by by_contra hcon
              push_neg at hcon
              exact hp (Prod.ext_iff.mpr ⟨hcon.1, hcon.2⟩))]
        rw [if_neg (fun hcon => by
          rcases List.mem_cons.mp hcon.1 with he | ht
          · exact hp he
          · exact hm ⟨ht, hcon.2⟩)]

theorem mem_nanIndices (arr : List (List (Option ℚ))) (r c : ℕ) :
    (r, c) ∈ nanIndices arr ↔
      r < arr.length ∧ c < (arr.getD r []).length ∧ getCell arr r c = none := by
  constructor
  · intro h
    rcases List.mem_flatMap.mp h with ⟨p, hp, hmem⟩
    rcases List.mem_filterMap.mp hmem with ⟨q, hq, hg⟩
    by_cases hn : q.2.isNone
    · rw [if_pos hn] at hg
      injection hg with hg1
      have h1 : p.1 = r := congrArg Prod.fst hg1
      have h2 : q.1 = c := congrArg Prod.snd hg1
      have hpe := List.mem_enum_iff_get?.mp hp
      have hqe := List.mem_enum_iff_get?.mp hq
      rw [h1] at hpe
      rw [h2] at hqe
      obtain ⟨hrl, hrg⟩ := List.get?_eq_some.mp hpe
      obtain ⟨hcl, hcg⟩ := List.get?_eq_some.mp hqe
      have hrow : arr.getD r [] = p.2 := by
        rw [List.getD_eq_getElem?_getD, ← List.get?_eq_getElem?, hpe]
        rfl
      refine ⟨hrl, ?_, ?_⟩
      · rw [hrow]; exact hcl
      · rw [getCell, hrow, List.getD_eq_getElem?_getD, ← List.get?_eq_getElem?, hqe]
        exact Option.isNone_iff_eq_none.mp hn
    · rw [if_neg hn] at hg
      cases hg
  · rintro ⟨hr, hc, hcell⟩
    have hrow : arr.getD r [] = arr.get ⟨r, hr⟩ := by
      rw [List.getD_eq_getElem?_getD, ← List.get?_eq_getElem?, List.get?_eq_get hr]
      rfl
    have hcellv : (arr.getD r []).get ⟨c, hc⟩ = none := by
      have hthis : (arr.getD r []).getD c none = none := hcell
      rw [List.getD_eq_getElem?_getD, ← List.get?_eq_getElem?, List.get?_eq_get hc] at hthis
      exact hthis
    apply List.mem_flatMap.mpr
    refine ⟨(r, arr.getD r []), ?_, ?_⟩
    · apply List.mem_enum_iff_get?.mpr
      show arr.get? r = some (arr.getD r [])
      rw [List.get?_eq_get hr, hrow]
    · apply List.mem_filterMap.mpr
      refine ⟨(c, none), ?_, ?_⟩
      · apply List.mem_enum_iff_get?.mpr
        show (arr.getD r []).get? c = some none
        rw [List.get?_eq_get hc, hcellv]
      · rfl

/-- Per-cell specification of `replace_nan_with_other_column`: a missing cell
becomes the same row's anchor value, a present cell is untouched. -/
theorem replace_nan_cell (arr : List (List (Option ℚ))) (values : List (Option ℚ))
    (r c : ℕ) (hr : r < arr.length) (hc : c < (arr.getD r []).length) :
    (getCell arr r c = none →
      getCell (replace_nan_with_other_column arr values) r c = values.getD r none) ∧
    (∀ v, getCell arr r c = some v →
      getCell (replace_nan_with_other_column arr values) r c = some v) := by
  unfold replace_nan_with_other_column
  rw [foldl_setCell_spec values arr r c (nanIndices arr) arr rfl (fun _ => rfl)]
  constructor
  · intro hnone
    rw [if_pos ⟨(mem_nanIndices arr r c).mpr ⟨hr, hc, hnone⟩, hr, hc⟩]
  · intro v hv
    rw [if_neg (fun hcon => by
      have hnone := ((mem_nanIndices arr r c).mp hcon.1).2.2
      rw [hv] at hnone
      cases hnone)]
    exact hv

/-- Per-cell specification of one substituted column group of
`preprocess_dataframe`, for a getter `g` and its anchor column `anc`. -/
theorem substitution_group_cell (g : PRow → List (Option ℚ)) (anc : PRow → Option ℚ)
    (df : List PRow) (r c : ℕ) (hr : r < df.length)
    (hc : c < (g (df.getD r default)).length) :
    ((g (df.getD r default)).getD c none = none →
      getCell (replace_nan_with_other_column (df.map g) (df.map anc)) r c =
        anc (df.getD r default)) ∧
    (∀ v, (g (df.getD r default)).getD c none = some v →
      getCell (replace_nan_with_other_column (df.map g) (df.map anc)) r c = some v) := by
  have hmap : (df.map g).getD r [] = g (df.getD r default) :=
    getD_map_of_lt g df r [] default hr
  have hval : (df.map anc).getD r none = anc (df.getD r default) :=
    getD_map_of_lt anc df r none default hr
  have hr2 : r < (df.map g).length := by simpa using hr
  have hc2 : c < ((df.map g).getD r []).length := by rw [hmap]; exact hc
  have hcell : getCell (df.map g) r c = (g (df.getD r default)).getD c none := by
    rw [getCell, hmap]
  have h := replace_nan_cell (df.map g) (df.map anc) r c hr2 hc2
  constructor
  · intro hnone
    rw [← hval]
    exact h.1 (by rw [hcell]; exact hnone)
  · intro v hv
    exact h.2 v (by rw [hcell]; exact hv)

/-- C9: the missing-value substitution of `preprocess_dataframe` replaces
each missing hand/face coordinate cell with exactly the same row's
anchor-joint coordinate — left wrist for the left hand, right wrist for the
right hand, nose for the face, x and y separately — and leaves every
non-missing cell unchanged. -/
theorem C9_substitution_per_cell :
    (∀ (df : List PRow) (r c : ℕ), r < df.length →
      c < ((df.getD r default).leftHandX).length →
      (((df.getD r default).leftHandX.getD c none = none →
        getCell (preprocess_dataframe_substitution df).lhx r c =
          (df.getD r default).leftWristX) ∧
       (∀ v, (df.getD r default).leftHandX.getD c none = some v →
        getCell (preprocess_dataframe_substitution df).lhx r c = some v))) ∧
    (∀ (df : List PRow) (r c : ℕ), r < df.length →
      c < ((df.getD r default).leftHandY).length →
      (((df.getD r default).leftHandY.getD c none = none →
        getCell (preprocess_dataframe_substitution df).lhy r c =
          (df.getD r default).leftWristY) ∧
       (∀ v, (df.getD r default).leftHandY.getD c none = some v →
        getCell (preprocess_dataframe_substitution df).lhy r c = some v))) ∧
    (∀ (df : List PRow) (r c : ℕ), r < df.length →
      c < ((df.getD r default).rightHandX).length →
      (((df.getD r default).rightHandX.getD c none = none →
        getCell (preprocess_dataframe_substitution df).rhx r c =
          (df.getD r default).rightWristX) ∧
       (∀ v, (df.getD r default).rightHandX.getD c none = some v →
        getCell (preprocess_dataframe_substitution df).rhx r c = some v))) ∧
    (∀ (df : List PRow) (r c : ℕ), r < df.length →
      c < ((df.getD r default).rightHandY).length →
      (((df.getD r default).rightHandY.getD c none = none →
        getCell (preprocess_dataframe_substitution df).rhy r c =
          (df.getD r default).rightWristY) ∧
       (∀ v, (df.getD r default).rightHandY.getD c none = some v →
        getCell (preprocess_dataframe_substitution df).rhy r c = some v))) ∧
    (∀ (df : List PRow) (r c : ℕ), r < df.length →
      c < ((df.getD r default).faceX).length →
      (((df.getD r default).faceX.getD c none = none →
        getCell (preprocess_dataframe_substitution df).fx r c =
          (df.getD r default).noseX) ∧
       (∀ v, (df.getD r default).faceX.getD c none = some v →
        getCell (preprocess_dataframe_substitution df).fx r c = some v))) ∧
    (∀ (df : List PRow) (r c : ℕ), r < df.length →
      c < ((df.getD r default).faceY).length →
      (((df.getD r default).faceY.getD c none = none →
        getCell (preprocess_dataframe_substitution df).fy r c =
          (df.getD r default).noseY) ∧
       (∀ v, (df.getD r default).faceY.getD c none = some v →
        getCell (preprocess_dataframe_substitution df).fy r c = some v))) :=
  ⟨fun df r c hr hc => substitution_group_cell (fun p => p.leftHandX) (fun p => p.leftWristX) df r c hr hc,
   fun df r c hr hc => substitution_group_cell (fun p => p.leftHandY) (fun p => p.leftWristY) df r c hr hc,
   fun df r c hr hc => substitution_group_cell (fun p => p.rightHandX) (fun p => p.rightWristX) df r c hr hc,
   fun df r c hr hc => substitution_group_cell (fun p => p.rightHandY) (fun p => p.rightWristY) df r c hr hc,
   fun df r c hr hc => substitution_group_cell (fun p => p.faceX) (fun p => p.noseX) df r c hr hc,
   fun df r c hr hc => substitution_group_cell (fun p => p.faceY) (fun p => p.noseY) df r c hr hc⟩

/-- Witness for C9 at a concrete one-row table whose left hand has one
missing and one present x cell. -/
theorem C9_substitution_per_cell_witness :
    getCell (preprocess_dataframe_substitution
      [{ (default : PRow) with leftHandX := [none, some 5], leftWristX := some 3 }]).lhx 0 0 =
      some 3 ∧
    getCell (preprocess_dataframe_substitution
      [{ (default : PRow) with leftHandX := [none, some 5], leftWristX := some 3 }]).lhx 0 1 =
      some 5 := by
  constructor
  · have h := (C9_substitution_per_cell.1
      [{ (default : PRow) with leftHandX := [none, some 5], leftWristX := some 3 }] 0 0
      (by decide) (by decide)).1 (by decide)
    simpa using h
  · exact (C9_substitution_per_cell.1
      [{ (default : PRow) with leftHandX := [none, some 5], leftWristX := some 3 }] 0 1
      (by decide) (by decide)).2 5 (by decide)

theorem mem_insertSortedU (u v : ℕ) :
    ∀ l : List ℕ, u ∈ insertSortedU v l ↔ u = v ∨ u ∈ l := by
  intro l
  induction l with
  | nil => simp [insertSortedU]
  | cons a t ih =>
    rw [insertSortedU]
    by_cases h1 : v < a
    · rw [if_pos h1]
      simp [List.mem_cons]
    · rw [if_neg h1]
      by_cases h2 : v = a
      · rw [if_pos h2]
        subst h2
        simp [List.mem_cons]
      · rw [if_neg h2]
        simp only [List.mem_cons, ih]
        tauto

theorem insertSortedU_sorted (v : ℕ) :
    ∀ l : List ℕ, l.Sorted (· < ·) → (insertSortedU v l).Sorted (· < ·) := by
  intro l
  induction l with
  | nil =>
    intro _
    simp [insertSortedU]
  | cons a t ih =>
    intro hs
    rw [insertSortedU]
    rcases List.sorted_cons.mp hs with ⟨ha, ht⟩
    by_cases h1 : v < a
    · rw [if_pos h1]
      exact List.sorted_cons.mpr ⟨fun b hb => by
        rcases List.mem_cons.mp hb with he | hm
        · omega
        · exact lt_trans h1 (ha b hm), hs⟩
    · rw [if_neg h1]
      by_cases h2 : v = a
      · rw [if_pos h2]; exact hs
      · rw [if_neg h2]
        refine List.sorted_cons.mpr ⟨fun b hb => ?_, ih ht⟩
        rcases (mem_insertSortedU b v t).mp hb with he | hm
        · omega
        · exact ha b hm

theorem mem_sortedUnique (u : ℕ) :
    ∀ l : List ℕ, u ∈ sortedUnique l ↔ u ∈ l := by
  intro l
  induction l with
  | nil => simp [sortedUnique]
  | cons a t ih =>
    show u ∈ insertSortedU a (sortedUnique t) ↔ _
    rw [mem_insertSortedU, ih]
    simp [List.mem_cons]

theorem sortedUnique_sorted : ∀ l : List ℕ, (sortedUnique l).Sorted (· < ·) := by
  intro l
  induction l with
  | nil => simp [sortedUnique]
  | cons a t ih => exact insertSortedU_sorted a (sortedUnique t) ih

theorem sorted_lt_ext {l₁ l₂ : List ℕ} (h1 : l₁.Sorted (· < ·)) (h2 : l₂.Sorted (· < ·))
    (hm : ∀ u, u ∈ l₁ ↔ u ∈ l₂) : l₁ = l₂ := by
  have nd1 : l₁.Nodup := h1.imp (fun h => ne_of_lt h)
  have nd2 : l₂.Nodup := h2.imp (fun h => ne_of_lt h)
  have hperm : l₁.Perm l₂ := (List.perm_ext_iff_of_nodup nd1 nd2).mpr hm
  exact List.eq_of_perm_of_sorted hperm (h1.imp (fun h => le_of_lt h))
    (h2.imp (fun h => le_of_lt h))

theorem sortedUnique_congr {l₁ l₂ : List ℕ} (hm : ∀ u, u ∈ l₁ ↔ u ∈ l₂) :
    sortedUnique l₁ = sortedUnique l₂ :=
  sorted_lt_ext (sortedUnique_sorted l₁) (sortedUnique_sorted l₂)
    (fun u => by rw [mem_sortedUnique, mem_sortedUnique]; exact hm u)

theorem mem_video_labels_flatten (rows : List VRow) (u : ℕ) :
    u ∈ (video_labels rows).flatten ↔ u ∈ rows.map (fun r => r.label) := by
  constructor
  · intro h
    rcases List.mem_flatten.mp h with ⟨ls, hls, hu⟩
    rcases List.mem_map.mp hls with ⟨v, _, he⟩
    subst he
    unfold uniqueLabelsOfVideo at hu
    rcases List.mem_map.mp (List.mem_dedup.mp hu) with ⟨r, hr, he2⟩
    exact List.mem_map.mpr ⟨r, (List.mem_filter.mp hr).1, he2⟩
  · intro h
    rcases List.mem_map.mp h with ⟨r, hr, he⟩
    apply List.mem_flatten.mpr
    refine ⟨uniqueLabelsOfVideo rows r.video, ?_, ?_⟩
    · exact List.mem_map.mpr ⟨r.video,
        (mem_sortedUnique r.video _).mpr (List.mem_map_of_mem (fun r => r.video) hr), rfl⟩
    · unfold uniqueLabelsOfVideo
      apply List.mem_dedup.mpr
      apply List.mem_map.mpr
      exact ⟨r, List.mem_filter.mpr ⟨hr, by simp⟩, he⟩

/-- The categories fitted inside one `dataframe_to_dataset` call are exactly
the sorted distinct labels of the one dataframe passed to that call. -/
theorem encCategories_eq (rows : List VRow) :
    encCategories rows = sortedUnique (rows.map (fun r => r.label)) :=
  sortedUnique_congr (mem_video_labels_flatten rows)

/-- C3 (amended): the one-hot width produced by `dataframe_to_dataset`
equals the number of distinct label values of the single dataframe passed to
that call — the encoder is created and fitted inside each call (once per
split pipeline), not once over the combined train, validation and test
corpora. -/
theorem C3_onehot_width (rows : List VRow) (vec : List ℕ)
    (hv : vec ∈ (dataframe_to_dataset rows).2) :
    vec.length = (sortedUnique (rows.map (fun r => r.label))).length := by
  rcases List.mem_map.mp hv with ⟨ls, _, he⟩
  subst he
  unfold oneHot
  rw [List.length_map, encCategories_eq]

/-- Witness for C3 (amended) at a concrete two-video table. -/
theorem C3_onehot_width_witness :
    (([1, 0] : List ℕ)).length =
      (sortedUnique (([⟨0, 7⟩, ⟨1, 9⟩] : List VRow).map (fun r => r.label))).length :=
  C3_onehot_width [⟨0, 7⟩, ⟨1, 9⟩] [1, 0] (by decide)

/-- Counterexample to C3 as stated: with a training table whose only label
is `0` and a validation table contributing labels `{0, 1}`, the training
pipeline's one-hot width is `1`, not the `2` distinct labels of the
combined corpora. -/
theorem C3_counterexample :
    (∀ vec ∈ (dataframe_to_dataset [⟨0, 0⟩]).2, vec.length = 1) ∧
    (sortedUnique ((([⟨0, 0⟩] : List VRow) ++ ([⟨1, 0⟩, ⟨2, 1⟩] : List VRow)).map (fun r => r.label))).length = 2 ∧
    (1 : ℕ) ≠ 2 := by
  decide

theorem countP_le_range' (len : ℕ) :
    ∀ n : ℕ, (List.range' 1 n).countP (fun b => decide (b ≤ len)) = min len n := by
  intro n
  induction n with
  | zero => simp
  | succ n ih =>
    rw [List.range'_concat, List.countP_append, ih]
    have hc : (List.countP (fun b => decide (b ≤ len)) [1 + 1 * n]) =
        if 1 + 1 * n ≤ len then 1 else 0 := by
      simp [List.countP_cons]
    rw [hc]
    by_cases h : 1 + 1 * n ≤ len
    · rw [if_pos h]; omega
    · rw [if_neg h]; omega

/-- The bucket index assigned by `bucket_by_sequence_length` with boundaries
`range(1, m)`: every length below `m - 1` gets its own bucket, and the final
bucket holds both `m - 1` and everything above it. -/
theorem bucketOf_eq_min (m len : ℕ) : bucketOf m len = min len (m - 1) := by
  unfold bucketOf bucket_boundaries
  exact countP_le_range' len (m - 1)

theorem mem_of_mem_chunksOfGo {α : Type} (bs : ℕ) :
    ∀ (fuel : ℕ) (l : List α) (batch : List α),
      batch ∈ chunksOfGo bs fuel l → ∀ x ∈ batch, x ∈ l := by
  intro fuel
  induction fuel with
  | zero =>
    intro l batch hb x hx
    cases l with
    | nil => simp [chunksOfGo] at hb
    | cons a t =>
      rw [show chunksOfGo bs 0 (a :: t) = [a :: t] from rfl] at hb
      rw [List.mem_singleton.mp hb] at hx
      exact hx
  | succ fuel ih =>
    intro l batch hb x hx
    cases l with
    | nil => simp [chunksOfGo] at hb
    | cons a t =>
      rw [show chunksOfGo bs (fuel + 1) (a :: t) =
        if bs = 0 then [a :: t]
        else (a :: t).take bs :: chunksOfGo bs fuel ((a :: t).drop bs) from rfl] at hb
      by_cases h0 : bs = 0
      · rw [if_pos h0] at hb
        rw [List.mem_singleton.mp hb] at hx
        exact hx
      · rw [if_neg h0] at hb
        rcases List.mem_cons.mp hb with he | hmem
        · subst he
          exact (List.take_sublist bs (a :: t)).subset hx
        · exact (List.drop_sublist bs (a :: t)).subset (ih _ batch hmem x hx)

theorem mem_of_mem_chunksOf {α : Type} (bs : ℕ) (l : List α) (batch : List α)
    (hb : batch ∈ chunksOf bs l) : ∀ x ∈ batch, x ∈ l :=
  mem_of_mem_chunksOfGo bs l.length l batch hb

/-- C4 (amended): every batch produced by the evaluation pipeline is
homogeneous in bucket index; since the bucket index is `min len (m - 1)`
for observed maximum length `m`, two examples in one batch have equal
original frame counts whenever either count is below `m - 1` — but the
final bucket merges the lengths `m - 1` and `m`, which may share a batch. -/
theorem C4_eval_bucketing (rows : List VRow) (batch_size : ℕ)
    (batch : List (ℕ × ℕ))
    (hb : batch ∈ generate_test_dataset_batches rows batch_size)
    (e1 e2 : ℕ × ℕ) (h1 : e1 ∈ batch) (h2 : e2 ∈ batch) :
    min e1.2 (maxElementLength ((videoLengthPairs rows).map (fun e => e.2)) - 1) =
      min e2.2 (maxElementLength ((videoLengthPairs rows).map (fun e => e.2)) - 1) ∧
    (e1.2 < maxElementLength ((videoLengthPairs rows).map (fun e => e.2)) - 1 →
      e1.2 = e2.2) := by
  simp only [generate_test_dataset_batches] at hb
  rcases List.mem_flatMap.mp hb with ⟨b, _, hbc⟩
  have he1 := mem_of_mem_chunksOf _ _ _ hbc e1 h1
  have he2 := mem_of_mem_chunksOf _ _ _ hbc e2 h2
  have hb1 := (List.mem_filter.mp he1).2
  have hb2 := (List.mem_filter.mp he2).2
  rw [beq_iff_eq] at hb1 hb2
  have hbeq : bucketOf (maxElementLength ((videoLengthPairs rows).map (fun e => e.2))) e1.2 =
      bucketOf (maxElementLength ((videoLengthPairs rows).map (fun e => e.2))) e2.2 := by
    rw [hb1, hb2]
  rw [bucketOf_eq_min, bucketOf_eq_min] at hbeq
  exact ⟨hbeq, fun hlt => by omega⟩

/-- Witness for C4 (amended) at a concrete table with video lengths 2 and 4. -/
theorem C4_eval_bucketing_witness :
    min (2 : ℕ) (maxElementLength ((videoLengthPairs
        (List.replicate 2 ⟨0, 0⟩ ++ List.replicate 2 ⟨1, 0⟩ ++ List.replicate 4 ⟨2, 0⟩)).map
        (fun e => e.2)) - 1) =
      min (2 : ℕ) (maxElementLength ((videoLengthPairs
        (List.replicate 2 ⟨0, 0⟩ ++ List.replicate 2 ⟨1, 0⟩ ++ List.replicate 4 ⟨2, 0⟩)).map
        (fun e => e.2)) - 1) ∧
    ((2 : ℕ) < maxElementLength ((videoLengthPairs
        (List.replicate 2 ⟨0, 0⟩ ++ List.replicate 2 ⟨1, 0⟩ ++ List.replicate 4 ⟨2, 0⟩)).map
        (fun e => e.2)) - 1 → (2 : ℕ) = 2) :=
  C4_eval_bucketing
    (List.replicate 2 ⟨0, 0⟩ ++ List.replicate 2 ⟨1, 0⟩ ++ List.replicate 4 ⟨2, 0⟩) 32
    [(0, 2), (1, 2)] (by decide) (0, 2) (1, 2) (by decide) (by decide)

/-- Counterexample to C4 as stated: with videos of lengths 4 and 5 the
boundaries `range(1, 5)` put both lengths in the final bucket, so one batch
mixes two different original frame counts. -/
theorem C4_counterexample :
    ∃ batch ∈ generate_test_dataset_batches
      (List.replicate 4 ⟨0, 0⟩ ++ List.replicate 5 ⟨1, 0⟩) 32,
      ∃ e1 ∈ batch, ∃ e2 ∈ batch, e1.2 ≠ e2.2 := by
  decide

theorem dropWhile_head_not {α : Type} (p : α → Bool) :
    ∀ (l : List α) (a : α) (t : List α), l.dropWhile p = a :: t → p a = false := by
  intro l
  induction l with
  | nil => intro a t h; cases h
  | cons b l2 ih =>
    intro a t h
    rw [List.dropWhile_cons] at h
    by_cases hb : p b = true
    · rw [if_pos hb] at h
      exact ih a t h
    · rw [if_neg hb] at h
      injection h with h1 _
      subst h1
      exact Bool.not_eq_true _ |>.mp hb

theorem flatMap_congr {α β : Type} {l : List α} {f h : α → List β}
    (he : ∀ a ∈ l, f a = h a) : l.flatMap f = l.flatMap h := by
  induction l with
  | nil => rfl
  | cons a t ih =>
    rw [List.flatMap_cons, List.flatMap_cons, he a (List.mem_cons_self a t),
      ih (fun b hb => he b (List.mem_cons_of_mem a hb))]

theorem map_const_eq_replicate {α β : Type} (l : List α) (b : β) :
    l.map (fun _ => b) = List.replicate l.length b :=
  List.map_const' l b

/-- `applyFactors` against a factor vector that is positionally aligned with
the filtered rows applies each factor to its own row: out-of-scale rows are
scaled, in-scale rows pass through unchanged. -/
theorem applyFactors_filter_map (g : DFRow → ℚ) :
    ∀ l : List DFRow, applyFactors l ((l.filter outOfScale).map g) =
      l.map (fun r => if outOfScale r then scaleRow r (g r) else r) := by
  intro l
  induction l with
  | nil => rfl
  | cons r t ih =>
    by_cases hr : outOfScale r
    · rw [List.filter_cons_of_pos hr, List.map_cons, List.map_cons, if_pos hr]
      show (if outOfScale r then
          scaleRow r ((g r :: (t.filter outOfScale).map g).headD 1) ::
            applyFactors t (g r :: (t.filter outOfScale).map g).tail
          else r :: applyFactors t (g r :: (t.filter outOfScale).map g)) = _
      rw [if_pos hr, List.headD_cons, List.tail_cons, ih]
    · rw [List.filter_cons_of_neg hr, List.map_cons, if_neg hr]
      show (if outOfScale r then
          scaleRow r (((t.filter outOfScale).map g).headD 1) ::
            applyFactors t ((t.filter outOfScale).map g).tail
          else r :: applyFactors t ((t.filter outOfScale).map g)) = _
      rw [if_neg hr, ih]

theorem sortedUnique_nil_iff (l : List ℕ) : sortedUnique l = [] ↔ l = [] := by
  constructor
  · intro h
    cases l with
    | nil => rfl
    | cons a t =>
      exact absurd ((mem_sortedUnique a (a :: t)).mpr (List.mem_cons_self a t))
        (by rw [h]; exact List.not_mem_nil a)
  · intro h; subst h; rfl

theorem repetitions_cons (r0 : DFRow) (tl : List DFRow) (v : ℕ) :
    repetitions (r0 :: tl) v =
      (if r0.video = v then 1 else 0) + repetitions tl v := by
  unfold repetitions
  by_cases h : r0.video = v
  · rw [List.filter_cons_of_pos (by simpa using h), if_pos h, List.length_cons]
    omega
  · rw [List.filter_cons_of_neg (by simpa using h), if_neg h]
    omega

theorem repetitions_eq_zero_of_not_mem (tl : List DFRow) (v : ℕ)
    (h : v ∉ tl.map (fun r => r.video)) : repetitions tl v = 0 := by
  unfold repetitions
  rw [List.length_eq_zero]
  rw [List.filter_eq_nil_iff]
  intro r hr hbeq
  exact h (List.mem_map.mpr ⟨r, hr, (beq_iff_eq.mp hbeq)⟩)

/-- The `groupby`-`size`-`repeat` construction (preprocessing.py lines
154-157) aligned positionally with rows sorted by video: each row receives
the value of `M` at its own video id, for any per-video value function `M`. -/
theorem groupby_repeat_aligned (M : ℕ → ℚ) :
    ∀ ms : List DFRow, ((ms.map (fun r => r.video)).Sorted (· ≤ ·)) →
      (sortedKeys ms).flatMap (fun v => List.replicate (repetitions ms v) (M v)) =
        ms.map (fun r => M r.video) := by
  intro ms
  induction ms with
  | nil => intro _; rfl
  | cons r0 tl ih =>
    intro hsort
    rw [List.map_cons] at hsort
    rcases List.sorted_cons.mp hsort with ⟨hle, hsorttl⟩
    have hK : sortedKeys (r0 :: tl) = insertSortedU r0.video (sortedKeys tl) := rfl
    have hmemkeys : ∀ v ∈ sortedKeys tl, v ∈ tl.map (fun r => r.video) :=
      fun v hv => (mem_sortedUnique v _).mp hv
    rw [hK]
    cases hKt : sortedKeys tl with
    | nil =>
      have htl : tl = [] := by
        have hKt2 : sortedUnique (tl.map (fun r => r.video)) = [] := hKt
        exact List.map_eq_nil.mp ((sortedUnique_nil_iff (tl.map (fun r => r.video))).mp hKt2)
      subst htl
      simp [sortedKeys, sortedUnique, insertSortedU, repetitions]
    | cons k K2 =>
      have hsortK : ((k :: K2).Sorted (· < ·)) := by
        rw [← hKt]; exact sortedUnique_sorted _
      have hkmem : k ∈ tl.map (fun r => r.video) :=
        hmemkeys k (by rw [hKt]; exact List.mem_cons_self k K2)
      have hv0k : r0.video ≤ k := hle k hkmem
      have hgtK2 : ∀ v ∈ K2, k < v := (List.sorted_cons.mp hsortK).1
      have hrepne : ∀ v, r0.video ≠ v →
          repetitions (r0 :: tl) v = repetitions tl v := by
        intro v hv
        rw [repetitions_cons, if_neg hv]
        omega
      have hih := ih hsorttl
      rw [hKt] at hih
      rw [insertSortedU]
      by_cases h1 : r0.video < k
      · rw [if_pos h1]
        have hnot : r0.video ∉ tl.map (fun r => r.video) := by
          intro hmem
          have hms := (mem_sortedUnique r0.video (tl.map (fun r => r.video))).mpr hmem
          have hms2 : r0.video ∈ sortedKeys tl := hms
          rw [hKt] at hms2
          rcases List.mem_cons.mp hms2 with he | hm
          · omega
          · have := hgtK2 _ hm; omega
        rw [List.flatMap_cons, repetitions_cons, if_pos rfl,
          repetitions_eq_zero_of_not_mem tl r0.video hnot]
        have hcong : ((k :: K2).flatMap
            (fun v => List.replicate (repetitions (r0 :: tl) v) (M v))) =
            ((k :: K2).flatMap (fun v => List.replicate (repetitions tl v) (M v))) := by
          apply flatMap_congr
          intro v hv
          have hne : r0.video ≠ v := by
            rcases List.mem_cons.mp hv with he | hm
            · omega
            · have := hgtK2 _ hm; omega
          rw [hrepne v hne]
        rw [hcong, hih, List.map_cons]
        simp
      · by_cases h2 : r0.video = k
        · rw [if_neg h1, if_pos h2]
          rw [List.flatMap_cons, repetitions_cons, if_pos h2]
          have hcong : (K2.flatMap
              (fun v => List.replicate (repetitions (r0 :: tl) v) (M v))) =
              (K2.flatMap (fun v => List.replicate (repetitions tl v) (M v))) := by
            apply flatMap_congr
            intro v hv
            have hne : r0.video ≠ v := by
              have := hgtK2 _ hv; omega
            rw [hrepne v hne]
          rw [hcong]
          rw [List.flatMap_cons] at hih
          rw [List.map_cons, ← hih]
          rw [show (1 : ℕ) + repetitions tl k = repetitions tl k + 1 from by omega,
            List.replicate_succ, h2]
          rfl
        · exact absurd (le_antisymm hv0k (by omega)) h2

/-- The positional factor vector of `normalize_dataframe_legacy` equals the
per-row per-video maximum when the table's rows are sorted by video id. -/
theorem repeatedFactors_eq_of_sorted (ms : List DFRow)
    (hsort : ((ms.map (fun r => r.video)).Sorted (· ≤ ·))) :
    repeatedFactors ms = ms.map (fun r => videoMax ms r.video) :=
  groupby_repeat_aligned (videoMax ms) ms hsort

/-- C1 (amended): in legacy normalization, for a table sorted by video id
the single per-video scale factor — the maximum absolute coordinate among
the out-of-range rows of that video — is applied to exactly the out-of-range
rows; the in-range rows of the same video pass through unchanged (they are
not rescaled). -/
theorem C1_legacy_scale_only_out_of_range (df : List DFRow)
    (hsort : ((df.map (fun r => r.video)).Sorted (· ≤ ·))) :
    normalize_dataframe_legacy df =
      (legacyShiftY (legacyShiftX df)).map
        (fun r => if outOfScale r then
            scaleRow r (videoMax ((legacyShiftY (legacyShiftX df)).filter outOfScale) r.video)
          else r) := by
  have hvid : (legacyShiftY (legacyShiftX df)).map (fun r => r.video) =
      df.map (fun r => r.video) := by
    unfold legacyShiftX legacyShiftY
    rw [List.map_map, List.map_map]
    rfl
  have hsort2 : (((legacyShiftY (legacyShiftX df)).map (fun r => r.video)).Sorted (· ≤ ·)) := by
    rw [hvid]; exact hsort
  have hsortms : ((((legacyShiftY (legacyShiftX df)).filter outOfScale).map
      (fun r => r.video)).Sorted (· ≤ ·)) :=
    List.Pairwise.sublist
      (List.Sublist.map _ (List.filter_sublist (legacyShiftY (legacyShiftX df)))) hsort2
  show legacyScale (legacyShiftY (legacyShiftX df)) = _
  unfold legacyScale
  rw [repeatedFactors_eq_of_sorted _ hsortms]
  exact applyFactors_filter_map _ (legacyShiftY (legacyShiftX df))

/-- Witness for C1 (amended) at a concrete sorted two-row table. -/
theorem C1_legacy_scale_only_out_of_range_witness :
    normalize_dataframe_legacy [⟨0, 0, 0, [2], [0]⟩, ⟨0, 0, 0, [1/2], [0]⟩] =
      (legacyShiftY (legacyShiftX [⟨0, 0, 0, [2], [0]⟩, ⟨0, 0, 0, [1/2], [0]⟩])).map
        (fun r => if outOfScale r then
            scaleRow r (videoMax ((legacyShiftY (legacyShiftX
              [⟨0, 0, 0, [2], [0]⟩, ⟨0, 0, 0, [1/2], [0]⟩])).filter outOfScale) r.video)
          else r) :=
  C1_legacy_scale_only_out_of_range [⟨0, 0, 0, [2], [0]⟩, ⟨0, 0, 0, [1/2], [0]⟩]
    (by decide)

/-- Counterexample to C1 as stated: video 0 has an out-of-range row
(coordinate 2) and an in-range row (coordinate 1/2); the out-of-range row is
divided by the per-video maximum 2, but the in-range row of the same video
is left at 1/2 — it is not rescaled, contradicting "applied to every frame
of that video". -/
theorem C1_counterexample :
    normalize_dataframe_legacy [⟨0, 0, 0, [2], [0]⟩, ⟨0, 0, 0, [1/2], [0]⟩] =
      [⟨0, 0, 0, [1], [0]⟩, ⟨0, 0, 0, [1/2], [0]⟩] ∧
    (⟨0, 0, 0, [1/2], [0]⟩ : DFRow) ≠ scaleRow ⟨0, 0, 0, [1/2], [0]⟩ 2 := by
  constructor
  · norm_num [normalize_dataframe_legacy, legacyScale, legacyShiftX, legacyShiftY,
      shiftAxis, outOfScale, rowVals, applyFactors, repeatedFactors, sortedKeys,
      sortedUnique, insertSortedU, repetitions, videoMax, maxAbs, listMax, listMin,
      scaleRow]
  · intro h
    have := congrArg (fun r => r.xs) h
    simp [scaleRow] at this
    norm_num at this

end TSSI
